import Mathlib

/-!
# Verification of the dashboard bucketing and aggregation logic

Shallow embedding of `server/controllers/dashboard_controller.js`:
the bucket planner `buildBuckets`, its date helpers (modelled on the
ECMAScript UTC `Date` semantics), and the two pure aggregation pipelines of
`getDashboardProductsHandler` / `getDashboardVisitorsHandler` (the Prisma
fetches are external collaborators; the handlers here receive the fetched
rows as arguments).

Instants are modelled as integers (milliseconds since the UTC epoch), exactly
the time value of a JavaScript `Date`. An invalid date (`NaN` time value) is
modelled as `none : Option Int`; `TimeClip` range limits are idealized away
(all inputs of interest are far below the 8.64e15 ms limit). Division `/` and
`%` on `Int` are Euclidean, which for the positive constant divisors used here
coincides with ECMAScript's `floor`-division and positive modulo.
-/

namespace DashboardModel

/-! ## Proleptic Gregorian calendar core (day numbers relative to 1970-01-01 UTC)

`daysFromCivil` is the standard proleptic-Gregorian day-number formula
(Hinnant's algorithm, with its two branches expressed arithmetically); it
models the ECMAScript `MakeDay` computation. The `...Of` functions decompose
a day number era / century / quadrennium / year / month-wise and together
form the computable inverse, modelling `YearFromTime` / `MonthFromTime` /
`DateFromTime`. -/

/-- Day number of a civil date; `m` is 1-based and the formula is used only
for `1 ≤ m ≤ 12` (callers normalize months first), while `d` acts as a pure
day offset. -/
def daysFromCivil (y m d : Int) : Int :=
  let y' := y + (m + 9) / 12 - 1
  let era := y' / 400
  let yoe := y' - era * 400
  let doy := (153 * ((m + 9) % 12) + 2) / 5 + d - 1
  let doe := yoe * 365 + yoe / 4 - yoe / 100 + doy
  era * 146097 + doe - 719468

/-- 400-year era containing day `z`. -/
def eraOf (z : Int) : Int := (z + 719468) / 146097

/-- Day of era, in `[0, 146096]`. -/
def doeOf (z : Int) : Int := z + 719468 - eraOf z * 146097

/-- Century of era, in `[0, 3]`. -/
def qcOf (z : Int) : Int := (doeOf z - doeOf z / 146096) / 36524

/-- Day of century, in `[0, 36524]`. -/
def dcOf (z : Int) : Int := doeOf z - 36524 * qcOf z

/-- Quadrennium of century, in `[0, 24]`. -/
def q4Of (z : Int) : Int := dcOf z / 1461

/-- Day of quadrennium, in `[0, 1460]`. -/
def dqOf (z : Int) : Int := dcOf z - 1461 * q4Of z

/-- Year of quadrennium, in `[0, 3]`. -/
def yqOf (z : Int) : Int := (dqOf z - dqOf z / 1460) / 365

/-- Day of the March-based year, in `[0, 365]`. -/
def doyOf (z : Int) : Int := dqOf z - 365 * yqOf z

/-- Year of era, in `[0, 399]`. -/
def yoeOf (z : Int) : Int := 100 * qcOf z + 4 * q4Of z + yqOf z

/-- Shifted month, in `[0, 11]` (0 = March, 11 = February). -/
def mpOf (z : Int) : Int := (5 * doyOf z + 2) / 153

/-- Civil day-of-month of day `z`, in `[1, 31]`. -/
def dayOf (z : Int) : Int := doyOf z - (153 * mpOf z + 2) / 5 + 1

/-- Civil month of day `z`, in `[1, 12]` (January and February close the
shifted year, hence the `mpOf z / 10` correction). -/
def monthOf (z : Int) : Int := mpOf z + 3 - 12 * (mpOf z / 10)

/-- Civil year of day `z`. -/
def yearOf (z : Int) : Int := yoeOf z + eraOf z * 400 + mpOf z / 10

/-- Civil date (year, month, day) of day number `z`. -/
def civilFromDays (z : Int) : Int × Int × Int := (yearOf z, monthOf z, dayOf z)

/-- Day number of the first day of the month with linear index `μ`
(month `m`, 1-based, of year `y` has linear index `12*y + m - 1`). -/
def firstOfIdx (μ : Int) : Int := daysFromCivil (μ / 12) (μ % 12 + 1) 1

/-- Linear index of the month containing day `z`. -/
def muOf (z : Int) : Int := 12 * yearOf z + monthOf z - 1

/-! ## The JavaScript `Date` UTC accessors on millisecond instants -/

/-- Milliseconds per day. -/
def msPerDay : Int := 86400000

/-- `getUTCFullYear` of the instant `t`. -/
def getUTCFullYear (t : Int) : Int := yearOf (t / 86400000)

/-- `getUTCMonth` of the instant `t` (0-based, as in JavaScript). -/
def getUTCMonth (t : Int) : Int := monthOf (t / 86400000) - 1

/-- `getUTCDate` (day of month, 1-based) of the instant `t`. -/
def getUTCDate (t : Int) : Int := dayOf (t / 86400000)

/-- `getUTCDay` (weekday, 0 = Sunday) of the instant `t`; day 0 of the epoch
was a Thursday. -/
def getUTCDay (t : Int) : Int := (t / 86400000 + 4) % 7

/-- `Date.UTC(y, m, d, hh, mi, ss, ms)` with `m` 0-based: months are
normalized (`MakeDay`), the rest are raw offsets (`MakeTime`/`MakeDate`). -/
def DateUTC (y m d hh mi ss ms : Int) : Int :=
  daysFromCivil (y + m / 12) (m % 12 + 1) d * 86400000 +
    hh * 3600000 + mi * 60000 + ss * 1000 + ms

/-- `d.setUTCDate(n)`: keep year, month and time of day, replace the day of
month by the (possibly out-of-range, then normalized) value `n`. -/
def setUTCDate (t n : Int) : Int :=
  DateUTC (getUTCFullYear t) (getUTCMonth t) n 0 0 0 0 + t % 86400000

/-- `d.setUTCMonth(n)`: keep year, day of month and time of day, replace the
month by the (possibly out-of-range, then normalized) 0-based value `n`. -/
def setUTCMonth (t n : Int) : Int :=
  DateUTC (getUTCFullYear t) n (getUTCDate t) 0 0 0 0 + t % 86400000

/-! ## The date helpers of `dashboard_controller.js` -/

/-- `startOfDayUTC` from the controller. -/
def startOfDayUTC (d : Int) : Int :=
  DateUTC (getUTCFullYear d) (getUTCMonth d) (getUTCDate d) 0 0 0 0

/-- `endOfDayUTC` from the controller. -/
def endOfDayUTC (d : Int) : Int :=
  DateUTC (getUTCFullYear d) (getUTCMonth d) (getUTCDate d) 23 59 59 999

/-- `startOfISOWeekUTC` from the controller: `d.getUTCDay() || 7` is modelled
by the `if`, the mutation sequence by nested lets. -/
def startOfISOWeekUTC (d : Int) : Int :=
  let day := if getUTCDay d = 0 then 7 else getUTCDay d
  let start := DateUTC (getUTCFullYear d) (getUTCMonth d) (getUTCDate d) 0 0 0 0
  let start2 := setUTCDate start (getUTCDate start - (day - 1))
  startOfDayUTC start2

/-- `endOfISOWeekUTC` from the controller. -/
def endOfISOWeekUTC (d : Int) : Int :=
  let start := startOfISOWeekUTC d
  let e := setUTCDate start (getUTCDate start + 6)
  endOfDayUTC e

/-- `startOfMonthUTC` from the controller. -/
def startOfMonthUTC (d : Int) : Int :=
  DateUTC (getUTCFullYear d) (getUTCMonth d) 1 0 0 0 0

/-- `endOfMonthUTC` from the controller: day 0 of the next month. -/
def endOfMonthUTC (d : Int) : Int :=
  endOfDayUTC (DateUTC (getUTCFullYear d) (getUTCMonth d + 1) 0 0 0 0 0)

/-- `addDaysUTC` from the controller. -/
def addDaysUTC (d days : Int) : Int := setUTCDate d (getUTCDate d + days)

/-- `addMonthsUTC` from the controller: note that it first rebuilds the date
at midnight (dropping the time of day), then shifts the month. -/
def addMonthsUTC (d months : Int) : Int :=
  let res := DateUTC (getUTCFullYear d) (getUTCMonth d) (getUTCDate d) 0 0 0 0
  setUTCMonth res (getUTCMonth res + months)

/-! ## JavaScript `Number(string)` conversion

`toUTCDateOnly` feeds each `'-'`-separated component through `Number`. The
model distinguishes `NaN`, integral values, and truthy non-integral values
(finite non-integers and infinities), which is all that the controller's
falsiness test and `Date.UTC` call can observe. -/

/-- Result of a JavaScript `Number(string)` conversion, as far as the
controller can observe it. -/
inductive JSNumber where
  | nan : JSNumber
  | int (i : Int) : JSNumber
  | nonint : JSNumber
deriving DecidableEq

/-- JavaScript falsiness of a number: `NaN` and `±0` are falsy. -/
def jsFalsy : JSNumber → Bool
  | .nan => true
  | .int i => i == 0
  | .nonint => false

/-- The `StrWhiteSpaceChar` set trimmed by `Number(string)`. -/
def isJsWhitespace (c : Char) : Bool :=
  c == ' ' || c == '\t' || c == '\n' || c == '\r' ||
  c == '\x0b' || c == '\x0c' || c == '\u00A0' || c == '\uFEFF' ||
  c == '\u1680' || ('\u2000' ≤ c && c ≤ '\u200A') || c == '\u2028' ||
  c == '\u2029' || c == '\u202F' || c == '\u205F' || c == '\u3000'

/-- Trim JavaScript whitespace from both ends. -/
def jsTrim (s : String) : String :=
  String.mk (((s.toList.dropWhile isJsWhitespace).reverse.dropWhile
    isJsWhitespace).reverse)

/-- Value of a single digit character, hex-capable. -/
def digitVal (c : Char) : Option Int :=
  if '0' ≤ c ∧ c ≤ '9' then some ((c.toNat : Int) - 48)
  else if 'a' ≤ c ∧ c ≤ 'f' then some ((c.toNat : Int) - 87)
  else if 'A' ≤ c ∧ c ≤ 'F' then some ((c.toNat : Int) - 55)
  else none

/-- Parse a non-empty digit string in the given radix. -/
def parseRadix (radix : Int) (cs : List Char) : Option Int :=
  if cs.isEmpty then none
  else
    cs.foldl
      (fun acc c =>
        match acc, digitVal c with
        | some a, some v => if v < radix then some (a * radix + v) else none
        | _, _ => none)
      (some 0)

/-- Parse the decimal-literal part (mantissa and optional exponent) of a
`Number(string)` conversion, applied after an optional sign; returns the
exact value classified as integral or not. -/
def parseDecimal (sgn : Int) (cs : List Char) : JSNumber :=
  let mm := cs.takeWhile (fun c => c ≠ 'e' ∧ c ≠ 'E')
  let rest1 := cs.drop mm.length
  let expo : Option Int :=
    match rest1 with
    | [] => some 0
    | _ :: es =>
      match es with
      | '+' :: ds => parseRadix 10 ds
      | '-' :: ds => (parseRadix 10 ds).map (fun v => -v)
      | ds => parseRadix 10 ds
  let ip := mm.takeWhile (fun c => c ≠ '.')
  let rest2 := mm.drop ip.length
  let fp : Option (List Char) :=
    match rest2 with
    | [] => some []
    | _ :: fs => if fs.contains '.' then none else some fs
  match expo, fp with
  | some e, some fs =>
    if ip.all (fun c => '0' ≤ c ∧ c ≤ '9') ∧ fs.all (fun c => '0' ≤ c ∧ c ≤ '9') ∧
        (ip ≠ [] ∨ fs ≠ []) then
      let a := ip.foldl (fun acc c => acc * 10 + ((c.toNat : Int) - 48)) 0
      let b := fs.foldl (fun acc c => acc * 10 + ((c.toNat : Int) - 48)) 0
      let n := a * (10 : Int) ^ fs.length + b
      let e2 := e - fs.length
      if 0 ≤ e2 then .int (sgn * n * (10 : Int) ^ e2.toNat)
      else if n % (10 : Int) ^ (-e2).toNat = 0 then
        .int (sgn * (n / (10 : Int) ^ (-e2).toNat))
      else .nonint
    else .nan
  | _, _ => .nan

/-- Decimal literal or the literal word `Infinity` (with the sign already
consumed). -/
def parseSigned (sgn : Int) (cs : List Char) : JSNumber :=
  if cs = "Infinity".toList then .nonint else parseDecimal sgn cs

/-- The ECMAScript `Number(string)` conversion (exact-value model): trims
whitespace, accepts an empty string as `0`, unsigned radix literals, and
signed decimal literals with optional fraction and exponent; everything else
is `NaN`. -/
def jsNumber (s : String) : JSNumber :=
  let t := jsTrim s
  if t = "" then .int 0
  else
    match t.toList with
    | '0' :: 'x' :: r =>
      (match parseRadix 16 r with | some v => .int v | none => .nan)
    | '0' :: 'X' :: r =>
      (match parseRadix 16 r with | some v => .int v | none => .nan)
    | '0' :: 'o' :: r =>
      (match parseRadix 8 r with | some v => .int v | none => .nan)
    | '0' :: 'O' :: r =>
      (match parseRadix 8 r with | some v => .int v | none => .nan)
    | '0' :: 'b' :: r =>
      (match parseRadix 2 r with | some v => .int v | none => .nan)
    | '0' :: 'B' :: r =>
      (match parseRadix 2 r with | some v => .int v | none => .nan)
    | '+' :: r => parseSigned 1 r
    | '-' :: r => parseSigned (-1) r
    | r => parseSigned 1 r

/-! ## `toUTCDateOnly` and `fmt` -/

/-- The JavaScript `split('-')` on a character list: splits at every
occurrence of the separator, keeping empty groups (so the result is always
non-empty). -/
def splitDash : List Char → List (List Char)
  | [] => [[]]
  | c :: rest =>
    match splitDash rest with
    | [] => [[c]]
    | g :: gs => if c = '-' then [] :: g :: gs else (c :: g) :: gs

/-- `toUTCDateOnly` from the controller. The outer `Option` is JavaScript
`null` (returned for the empty string and for falsy components); the inner
`Option Int` is the `Date` value, `none` being an invalid date (a truthy
non-integral component makes `Date.UTC` return `NaN`). -/
def toUTCDateOnly (dateStr : String) : Option (Option Int) :=
  if dateStr = "" then none
  else
    let nums := (splitDash dateStr.toList).map (fun cs => jsNumber (String.mk cs))
    let y := nums.getD 0 .nan
    let m := nums.getD 1 .nan
    let d := nums.getD 2 .nan
    if jsFalsy y || jsFalsy m || jsFalsy d then none
    else
      match y, m, d with
      | .int yi, .int mi, .int di => some (some (DateUTC yi (mi - 1) di 0 0 0 0))
      | _, _, _ => some none

/-- `String(n).padStart(2, '0')`. -/
def pad2 (s : String) : String :=
  if s.length ≥ 2 then s else if s.length = 1 then "0" ++ s else "00"

/-- `fmt` from the controller: render an instant as `YYYY-MM-DD` (UTC). -/
def fmt (d : Int) : String :=
  toString (getUTCFullYear d) ++ "-" ++ pad2 (toString (getUTCMonth d + 1)) ++
    "-" ++ pad2 (toString (getUTCDate d))

/-! ## The bucket planner `buildBuckets` -/

/-- A bucket `{start, end}`; the `end` field is named `stop` because `end` is
a Lean keyword. -/
structure Bucket where
  start : Int
  stop : Int
deriving DecidableEq

/-- The enumeration loop `while (cursor <= rangeEnd) { push(makeBucket
cursor); cursor = advance(cursor) }`. The inner guard `cursor < adv cursor`
is the termination witness baked into the definition; every advance used by
`buildBuckets` strictly increases the cursor (proved below), so the guard
branch that stops early is dead code there. -/
def enumBuckets (mk : Int → Bucket) (adv : Int → Int) (cursor rangeEnd : Int) :
    List Bucket :=
  if h : cursor ≤ rangeEnd then
    mk cursor ::
      (if h2 : cursor < adv cursor then enumBuckets mk adv (adv cursor) rangeEnd
       else [])
  else []
termination_by (rangeEnd + 1 - cursor).toNat
decreasing_by simp_wf; omega

/-- Run the enumeration loop on possibly-invalid bounds: a `NaN` `<=`
comparison is false in JavaScript, so the loop body never runs when either
bound is an invalid date. -/
def runEnum (mk : Int → Bucket) (adv : Int → Int) (rS rE : Option Int) :
    List Bucket :=
  match rS, rE with
  | some s, some e => enumBuckets mk adv s e
  | _, _ => []

/-- Result of `buildBuckets`. -/
structure BucketsResult where
  rangeStart : Option Int
  rangeEnd : Option Int
  buckets : List Bucket

/-- `buildBuckets` from the controller. `startDate`/`endDate` are the raw
query parameters (absent or a string); `now` is the current instant
(`new Date()`). -/
def buildBuckets (startDate endDate : Option String) (bucket : String)
    (now : Int) : BucketsResult :=
  let rangeStartP : Option (Option Int) :=
    match startDate with
    | none => none
    | some s => toUTCDateOnly s
  let rangeEndP : Option (Option Int) :=
    match endDate with
    | none => none
    | some s => toUTCDateOnly s
  let rangeEnd : Option Int :=
    match rangeEndP with
    | none => some (startOfDayUTC now)
    | some v => v
  let rangeStart : Option Int :=
    match rangeStartP with
    | some v => v
    | none =>
      if bucket = "month" then
        rangeEnd.map (fun e => startOfMonthUTC (setUTCMonth e (getUTCMonth e - 5)))
      else if bucket = "week" then
        rangeEnd.map (fun e => startOfISOWeekUTC (setUTCDate e (getUTCDate e - 7 * 11)))
      else
        rangeEnd.map (fun e => startOfDayUTC (setUTCDate e (getUTCDate e - 6)))
  if bucket = "month" then
    let rS := rangeStart.map startOfMonthUTC
    let rE := rangeEnd.map endOfMonthUTC
    { rangeStart := rS, rangeEnd := rE,
      buckets := runEnum (fun d => ⟨startOfMonthUTC d, endOfMonthUTC d⟩)
        (fun d => addMonthsUTC d 1) rS rE }
  else if bucket = "week" then
    let rS := rangeStart.map startOfISOWeekUTC
    let rE := rangeEnd.map endOfISOWeekUTC
    { rangeStart := rS, rangeEnd := rE,
      buckets := runEnum (fun d => ⟨startOfISOWeekUTC d, endOfISOWeekUTC d⟩)
        (fun d => addDaysUTC d 7) rS rE }
  else
    let rS := rangeStart.map startOfDayUTC
    let rE := rangeEnd.map endOfDayUTC
    { rangeStart := rS, rangeEnd := rE,
      buckets := runEnum (fun d => ⟨startOfDayUTC d, endOfDayUTC d⟩)
        (fun d => addDaysUTC d 1) rS rE }

/-! ## The two handlers (pure parts)

The Prisma fetches are external collaborators; the handlers receive the rows
they would return (plus the `prisma.product.count()` value) as arguments. -/

/-- A `ProductTrend` row (all columns are `NOT NULL` in the schema). -/
structure ProductTrendRow where
  date : Int
  totalProducts : Int
  productsAdded : Int
  productsRemoved : Int

/-- One element of the `trend` array of the products response;
`totalProducts` is `none` while still unfilled (JavaScript `null`). -/
structure TrendBucketOut where
  startDate : String
  endDate : String
  totalProducts : Option Int
  productsAdded : Int
  productsRemoved : Int
deriving DecidableEq

/-- The forward-fill loop of `getDashboardProductsHandler`: `lastTotal`
starts as `null`; a missing total becomes `lastTotal ?? 0`, a present total
updates `lastTotal`. -/
def fillTotals : Option Int → List TrendBucketOut → List TrendBucketOut
  | _, [] => []
  | lastTotal, r :: rs =>
    match r.totalProducts with
    | none => { r with totalProducts := some (lastTotal.getD 0) } :: fillTotals lastTotal rs
    | some v => r :: fillTotals (some v) rs

/-- The JSON body of the products response. -/
structure ProductsResponse where
  currentTotal : Int
  trend : List TrendBucketOut

/-- Pure part of `getDashboardProductsHandler`: `trends` is the list fetched
for `date` between `rangeStart` and `rangeEnd`, `productCount` the result of
`prisma.product.count()`. The `|| 0` guards on `productsAdded` and
`productsRemoved` are identities on integer columns. -/
def getDashboardProductsHandler (startDate endDate bucket : Option String)
    (now : Int) (trends : List ProductTrendRow) (productCount : Int) :
    ProductsResponse :=
  let r := buildBuckets startDate endDate (bucket.getD "day") now
  let trendByBucket := r.buckets.map (fun b =>
    let items := trends.filter (fun t =>
      decide (b.start ≤ t.date) && decide (t.date ≤ b.stop))
    let productsAdded := items.foldl (fun sum it => sum + it.productsAdded) 0
    let productsRemoved := items.foldl (fun sum it => sum + it.productsRemoved) 0
    { startDate := fmt b.start
      endDate := fmt b.stop
      totalProducts := items.getLast?.map (fun l => l.totalProducts)
      productsAdded := productsAdded
      productsRemoved := productsRemoved })
  { currentTotal := productCount, trend := fillTotals none trendByBucket }

/-- A `VisitorLog` row (only the timestamp matters to the aggregation). -/
structure VisitorLogRow where
  visitedAt : Int

/-- One element of the `visitorsByBucket` array of the visitors response. -/
structure VisitorBucketOut where
  startDate : String
  endDate : String
  visitors : Int
deriving DecidableEq

/-- The JSON body of the visitors response. -/
structure VisitorsResponse where
  totalVisitors : Int
  visitorsByBucket : List VisitorBucketOut

/-- Pure part of `getDashboardVisitorsHandler`: `logs` is the list fetched
for `visitedAt` between `rangeStart` and `rangeEnd`. -/
def getDashboardVisitorsHandler (startDate endDate bucket : Option String)
    (now : Int) (logs : List VisitorLogRow) : VisitorsResponse :=
  let r := buildBuckets startDate endDate (bucket.getD "day") now
  let visitorsByBucket := r.buckets.map (fun b =>
    let count := logs.foldl (fun acc l =>
      acc + (if b.start ≤ l.visitedAt ∧ l.visitedAt ≤ b.stop then 1 else 0)) 0
    { startDate := fmt b.start, endDate := fmt b.stop, visitors := count })
  { totalVisitors := (logs.length : Int), visitorsByBucket := visitorsByBucket }

end DashboardModel

namespace DashboardModel

/-! ## Calendar foundation lemmas -/

theorem doe_bounds (z : Int) : 0 ≤ doeOf z ∧ doeOf z ≤ 146096 := by
  simp only [doeOf, eraOf]; omega

theorem qc_bounds (z : Int) : 0 ≤ qcOf z ∧ qcOf z ≤ 3 := by
  have h := doe_bounds z
  simp only [qcOf]; omega

theorem dc_bounds (z : Int) : 0 ≤ dcOf z ∧ dcOf z ≤ 36524 := by
  have h := doe_bounds z
  simp only [dcOf, qcOf]; omega

theorem q4_bounds (z : Int) : 0 ≤ q4Of z ∧ q4Of z ≤ 24 := by
  have h := dc_bounds z
  simp only [q4Of]; omega

theorem dq_bounds (z : Int) : 0 ≤ dqOf z ∧ dqOf z ≤ 1460 := by
  have h := dc_bounds z
  simp only [dqOf, q4Of]; omega

theorem yq_bounds (z : Int) : 0 ≤ yqOf z ∧ yqOf z ≤ 3 := by
  have h := dq_bounds z
  simp only [yqOf]; omega

theorem doy_bounds (z : Int) : 0 ≤ doyOf z ∧ doyOf z ≤ 365 := by
  have h := dq_bounds z
  simp only [doyOf, yqOf]; omega

theorem yoe_bounds (z : Int) : 0 ≤ yoeOf z ∧ yoeOf z ≤ 399 := by
  have h1 := qc_bounds z; have h2 := q4_bounds z; have h3 := yq_bounds z
  simp only [yoeOf]; omega

theorem doe_decomp (z : Int) :
    doeOf z = 36524 * qcOf z + 1461 * q4Of z + 365 * yqOf z + doyOf z := by
  simp only [doyOf, dqOf, dcOf]; ring

theorem yoe_div4 (z : Int) : yoeOf z / 4 = 25 * qcOf z + q4Of z := by
  have h1 := qc_bounds z; have h2 := q4_bounds z; have h3 := yq_bounds z
  simp only [yoeOf]; omega

theorem yoe_div100 (z : Int) : yoeOf z / 100 = qcOf z := by
  have h1 := qc_bounds z; have h2 := q4_bounds z; have h3 := yq_bounds z
  simp only [yoeOf]; omega

theorem doe_recon (z : Int) :
    365 * yoeOf z + yoeOf z / 4 - yoeOf z / 100 + doyOf z = doeOf z := by
  rw [yoe_div4, yoe_div100, doe_decomp]
  simp only [yoeOf]; ring

theorem mp_bounds (z : Int) : 0 ≤ mpOf z ∧ mpOf z ≤ 11 := by
  have h := doy_bounds z
  simp only [mpOf]; omega

theorem day_bounds (z : Int) : 1 ≤ dayOf z ∧ dayOf z ≤ 31 := by
  have h := doy_bounds z
  simp only [dayOf, mpOf]; omega

theorem month_bounds (z : Int) : 1 ≤ monthOf z ∧ monthOf z ≤ 12 := by
  have h := mp_bounds z
  simp only [monthOf]; omega

theorem daysFromCivil_civil (z : Int) :
    daysFromCivil (yearOf z) (monthOf z) (dayOf z) = z := by
  have h1 := mp_bounds z
  have h2 := doy_bounds z
  have h3 := yoe_bounds z
  have h4 := doe_recon z
  have h5 : eraOf z * 146097 + doeOf z = z + 719468 := by simp only [doeOf]; ring
  simp only [daysFromCivil, yearOf, monthOf, dayOf]
  omega

theorem daysFromCivil_day_offset (y m d : Int) :
    daysFromCivil y m d = daysFromCivil y m 1 + (d - 1) := by
  simp only [daysFromCivil]; omega

theorem firstOfIdx_eq (y m : Int) (h1 : 1 ≤ m) (h2 : m ≤ 12) :
    firstOfIdx (12 * y + m - 1) = daysFromCivil y m 1 := by
  have e1 : (12 * y + m - 1) / 12 = y := by omega
  have e2 : (12 * y + m - 1) % 12 + 1 = m := by omega
  rw [firstOfIdx, e1, e2]

theorem first_muOf_le (z : Int) : firstOfIdx (muOf z) ≤ z := by
  have h1 := month_bounds z
  have h2 := day_bounds z
  have hL1 := daysFromCivil_civil z
  have h3 := daysFromCivil_day_offset (yearOf z) (monthOf z) (dayOf z)
  rw [muOf, firstOfIdx_eq (yearOf z) (monthOf z) h1.1 h1.2]
  omega

theorem div400_era (z : Int) : (yoeOf z + eraOf z * 400) / 400 = eraOf z := by
  have h := yoe_bounds z
  omega

theorem doe_lt_yd_succ (z : Int) (h : yoeOf z ≤ 398) :
    doeOf z < 365 * (yoeOf z + 1) + (yoeOf z + 1) / 4 - (yoeOf z + 1) / 100 := by
  have h1 := doe_recon z
  have h2 := doy_bounds z
  have h3 : doyOf z = 365 → yqOf z = 3 ∧ (q4Of z ≤ 23 ∨ qcOf z = 3) := by
    have g1 := dq_bounds z; have g2 := dc_bounds z; have g3 := doe_bounds z
    simp only [doyOf, yqOf, dqOf, q4Of, dcOf, qcOf]
    omega
  have h4 := yoe_div4 z
  have h5 := yoe_div100 z
  have h6 : yoeOf z = 100 * qcOf z + 4 * q4Of z + yqOf z := rfl
  have h7 := qc_bounds z
  have h8 := q4_bounds z
  have h9 := yq_bounds z
  omega

theorem doy_lt_next (z : Int) : doyOf z + 1 ≤ (153 * (mpOf z + 1) + 2) / 5 := by
  have h := doy_bounds z
  simp only [mpOf]; omega

theorem lt_next_month (z : Int) (h : monthOf z ≤ 11) :
    z < daysFromCivil (yearOf z) (monthOf z + 1) 1 := by
  have h2 := mp_bounds z
  have h3 := doy_bounds z
  have h4 := yoe_bounds z
  have h8 := doe_bounds z
  have h9 := doe_recon z
  have h10 := doy_lt_next z
  have h13 : eraOf z * 146097 + doeOf z = z + 719468 := by simp only [doeOf]; ring
  have hm : monthOf z = mpOf z + 3 - 12 * (mpOf z / 10) := rfl
  have hy : yearOf z = yoeOf z + eraOf z * 400 + mpOf z / 10 := rfl
  have hcases : mpOf z ≤ 8 ∨ mpOf z = 10 ∨ mpOf z = 11 := by omega
  rcases hcases with hc | hc | hc
  case inl =>
    have hy0 : yearOf z = yoeOf z + eraOf z * 400 := by
      rw [hy]; omega
    simp only [daysFromCivil]
    rw [show (monthOf z + 1 + 9) / 12 = 1 by omega,
      show (monthOf z + 1 + 9) % 12 = mpOf z + 1 by omega,
      show yearOf z + 1 - 1 = yoeOf z + eraOf z * 400 by omega,
      div400_era z,
      show yoeOf z + eraOf z * 400 - eraOf z * 400 = yoeOf z by ring]
    omega
  case inr.inl =>
    have hy0 : yearOf z = yoeOf z + eraOf z * 400 + 1 := by
      rw [hy]; omega
    simp only [daysFromCivil]
    rw [show (monthOf z + 1 + 9) / 12 = 0 by omega,
      show (monthOf z + 1 + 9) % 12 = 11 by omega,
      show yearOf z + 0 - 1 = yoeOf z + eraOf z * 400 by omega,
      div400_era z,
      show yoeOf z + eraOf z * 400 - eraOf z * 400 = yoeOf z by ring]
    omega
  case inr.inr =>
    have hy0 : yearOf z = yoeOf z + eraOf z * 400 + 1 := by
      rw [hy]; omega
    simp only [daysFromCivil]
    rw [show (monthOf z + 1 + 9) / 12 = 1 by omega,
      show (monthOf z + 1 + 9) % 12 = 0 by omega,
      show yearOf z + 1 - 1 = yoeOf z + 1 + eraOf z * 400 by omega]
    by_cases hyoe : yoeOf z ≤ 398
    case pos =>
      have hC := doe_lt_yd_succ z hyoe
      rw [show (yoeOf z + 1 + eraOf z * 400) / 400 = eraOf z by omega,
        show yoeOf z + 1 + eraOf z * 400 - eraOf z * 400 = yoeOf z + 1 by ring]
      omega
    case neg =>
      rw [show (yoeOf z + 1 + eraOf z * 400) / 400 = eraOf z + 1 by omega,
        show yoeOf z + 1 + eraOf z * 400 - (eraOf z + 1) * 400 = yoeOf z - 399 by ring]
      omega

theorem lt_next_jan (z : Int) (h : monthOf z = 12) :
    z < daysFromCivil (yearOf z + 1) 1 1 := by
  have h2 := mp_bounds z
  have h3 := doy_bounds z
  have h4 := yoe_bounds z
  have h8 := doe_bounds z
  have h9 := doe_recon z
  have h10 := doy_lt_next z
  have h13 : eraOf z * 146097 + doeOf z = z + 719468 := by simp only [doeOf]; ring
  have hm : monthOf z = mpOf z + 3 - 12 * (mpOf z / 10) := rfl
  have hy : yearOf z = yoeOf z + eraOf z * 400 + mpOf z / 10 := rfl
  have hmp : mpOf z = 9 := by omega
  have hy0 : yearOf z = yoeOf z + eraOf z * 400 := by
    rw [hy]; omega
  simp only [daysFromCivil]
  rw [show yearOf z + 1 + ((1 : Int) + 9) / 12 - 1 = yoeOf z + eraOf z * 400 by omega,
    div400_era z,
    show yoeOf z + eraOf z * 400 - eraOf z * 400 = yoeOf z by ring]
  omega

theorem lt_first_next (z : Int) : z < firstOfIdx (muOf z + 1) := by
  have h1 := month_bounds z
  have e3 : muOf z + 1 = 12 * yearOf z + monthOf z := by rw [muOf]; ring
  rw [e3]
  rcases eq_or_lt_of_le h1.2 with h12 | h11
  case inl =>
    have e4 : firstOfIdx (12 * yearOf z + monthOf z) = daysFromCivil (yearOf z + 1) 1 1 := by
      have e1 : (12 * yearOf z + monthOf z) / 12 = yearOf z + 1 := by omega
      have e2 : (12 * yearOf z + monthOf z) % 12 + 1 = 1 := by omega
      rw [firstOfIdx, e1, e2]
    rw [e4]
    exact lt_next_jan z h12
  case inr =>
    have e4 : firstOfIdx (12 * yearOf z + monthOf z) =
        daysFromCivil (yearOf z) (monthOf z + 1) 1 := by
      have e1 : (12 * yearOf z + monthOf z) / 12 = yearOf z := by omega
      have e2 : (12 * yearOf z + monthOf z) % 12 + 1 = monthOf z + 1 := by omega
      rw [firstOfIdx, e1, e2]
    rw [e4]
    exact lt_next_month z (by omega)

theorem firstOfIdx_lt_succ (μ : Int) : firstOfIdx μ < firstOfIdx (μ + 1) := by
  obtain ⟨q, r, hqr, hr0, hr1⟩ : ∃ q r, μ = 12 * q + r ∧ 0 ≤ r ∧ r < 12 :=
    ⟨μ / 12, μ % 12, by omega, by omega, by omega⟩
  have e1 : firstOfIdx μ = daysFromCivil q (r + 1) 1 := by
    rw [show μ = 12 * q + (r + 1) - 1 by omega, firstOfIdx_eq q (r + 1) (by omega) (by omega)]
  rcases lt_or_le r 11 with hr | hr
  case inl =>
    have e2 : firstOfIdx (μ + 1) = daysFromCivil q (r + 2) 1 := by
      rw [show μ + 1 = 12 * q + (r + 2) - 1 by omega,
        firstOfIdx_eq q (r + 2) (by omega) (by omega)]
    rw [e1, e2]
    simp only [daysFromCivil]
    omega
  case inr =>
    have hr11 : r = 11 := by omega
    have e2 : firstOfIdx (μ + 1) = daysFromCivil (q + 1) 1 1 := by
      rw [show μ + 1 = 12 * (q + 1) + 1 - 1 by omega,
        firstOfIdx_eq (q + 1) 1 (by omega) (by omega)]
    rw [e1, e2, hr11]
    simp only [daysFromCivil]
    omega

theorem firstOfIdx_mono {μ ν : Int} (h : μ < ν) : firstOfIdx μ < firstOfIdx ν :=
  @Int.le_induction (fun n => firstOfIdx μ < firstOfIdx n) (μ + 1)
    (firstOfIdx_lt_succ μ)
    (fun n _ ih => lt_trans ih (firstOfIdx_lt_succ n)) ν (by omega)

theorem firstOfIdx_le_mono {μ ν : Int} (h : μ ≤ ν) : firstOfIdx μ ≤ firstOfIdx ν := by
  rcases eq_or_lt_of_le h with h1 | h1
  case inl => rw [h1]
  case inr => exact le_of_lt (firstOfIdx_mono h1)

theorem muOf_eq_of_mem {μ z : Int} (h1 : firstOfIdx μ ≤ z) (h2 : z < firstOfIdx (μ + 1)) :
    muOf z = μ := by
  by_contra hne
  rcases lt_or_gt_of_ne hne with hlt | hgt
  case inl =>
    have ha : firstOfIdx (muOf z + 1) ≤ firstOfIdx μ := firstOfIdx_le_mono (by omega)
    have hb := lt_first_next z
    omega
  case inr =>
    have ha : firstOfIdx (μ + 1) ≤ firstOfIdx (muOf z) :=
      firstOfIdx_le_mono (by omega)
    have hb := first_muOf_le z
    omega

theorem muOf_firstOfIdx (μ : Int) : muOf (firstOfIdx μ) = μ :=
  muOf_eq_of_mem (le_refl _) (firstOfIdx_lt_succ μ)

theorem dayOf_firstOfIdx (μ : Int) : dayOf (firstOfIdx μ) = 1 := by
  have h1 := daysFromCivil_civil (firstOfIdx μ)
  have h2 := daysFromCivil_day_offset (yearOf (firstOfIdx μ)) (monthOf (firstOfIdx μ))
    (dayOf (firstOfIdx μ))
  have h3 : firstOfIdx (muOf (firstOfIdx μ)) = firstOfIdx μ := by rw [muOf_firstOfIdx]
  have h4 := month_bounds (firstOfIdx μ)
  have h5 : firstOfIdx (muOf (firstOfIdx μ)) =
      daysFromCivil (yearOf (firstOfIdx μ)) (monthOf (firstOfIdx μ)) 1 := by
    rw [muOf, firstOfIdx_eq (yearOf (firstOfIdx μ)) (monthOf (firstOfIdx μ)) h4.1 h4.2]
  omega

theorem yearOf_firstOfIdx (μ : Int) : yearOf (firstOfIdx μ) = μ / 12 := by
  have h1 := muOf_firstOfIdx μ
  have h2 := month_bounds (firstOfIdx μ)
  rw [muOf] at h1
  omega

theorem monthOf_firstOfIdx (μ : Int) : monthOf (firstOfIdx μ) = μ % 12 + 1 := by
  have h1 := muOf_firstOfIdx μ
  have h2 := month_bounds (firstOfIdx μ)
  rw [muOf] at h1
  omega

end DashboardModel

namespace DashboardModel

/-! ## Millisecond-level characterizations of the date helpers -/

theorem firstOfIdx_muOf_eq (z : Int) : firstOfIdx (muOf z) = z - dayOf z + 1 := by
  have h1 := month_bounds z
  have h2 := daysFromCivil_civil z
  have h3 := daysFromCivil_day_offset (yearOf z) (monthOf z) (dayOf z)
  rw [muOf, firstOfIdx_eq (yearOf z) (monthOf z) h1.1 h1.2]
  omega

theorem firstOfIdx_lt_iff {μ ν : Int} : firstOfIdx μ < firstOfIdx ν ↔ μ < ν := by
  constructor
  case mp =>
    intro h
    by_contra hle
    have := firstOfIdx_le_mono (show ν ≤ μ by omega)
    omega
  case mpr => exact firstOfIdx_mono

theorem daysFromCivil_norm (y m0 d : Int) :
    daysFromCivil (y + m0 / 12) (m0 % 12 + 1) d = firstOfIdx (12 * y + m0) + (d - 1) := by
  have e1 : (12 * y + m0) / 12 = y + m0 / 12 := by omega
  have e2 : (12 * y + m0) % 12 + 1 = m0 % 12 + 1 := by omega
  rw [firstOfIdx, e1, e2, daysFromCivil_day_offset]

theorem DateUTC_eq (y m0 d hh mi ss ms : Int) :
    DateUTC y m0 d hh mi ss ms =
      (firstOfIdx (12 * y + m0) + (d - 1)) * 86400000 +
        hh * 3600000 + mi * 60000 + ss * 1000 + ms := by
  rw [DateUTC, daysFromCivil_norm]

theorem startOfDayUTC_eq (t : Int) :
    startOfDayUTC t = t / 86400000 * 86400000 := by
  rw [startOfDayUTC, getUTCFullYear, getUTCMonth, getUTCDate, DateUTC_eq]
  have h := firstOfIdx_muOf_eq (t / 86400000)
  rw [muOf] at h
  rw [show 12 * yearOf (t / 86400000) + (monthOf (t / 86400000) - 1) =
    12 * yearOf (t / 86400000) + monthOf (t / 86400000) - 1 by ring, h]
  ring

theorem endOfDayUTC_eq (t : Int) :
    endOfDayUTC t = t / 86400000 * 86400000 + 86399999 := by
  rw [endOfDayUTC, getUTCFullYear, getUTCMonth, getUTCDate, DateUTC_eq]
  have h := firstOfIdx_muOf_eq (t / 86400000)
  rw [muOf] at h
  rw [show 12 * yearOf (t / 86400000) + (monthOf (t / 86400000) - 1) =
    12 * yearOf (t / 86400000) + monthOf (t / 86400000) - 1 by ring, h]
  ring

theorem setUTCDate_eq (t n : Int) :
    setUTCDate t n =
      (t / 86400000 + (n - dayOf (t / 86400000))) * 86400000 + t % 86400000 := by
  rw [setUTCDate, getUTCFullYear, getUTCMonth, DateUTC_eq]
  have h := firstOfIdx_muOf_eq (t / 86400000)
  rw [muOf] at h
  rw [show 12 * yearOf (t / 86400000) + (monthOf (t / 86400000) - 1) =
    12 * yearOf (t / 86400000) + monthOf (t / 86400000) - 1 by ring, h]
  ring

theorem addDaysUTC_eq (t k : Int) : addDaysUTC t k = t + k * 86400000 := by
  rw [addDaysUTC, setUTCDate_eq, getUTCDate]
  omega

theorem startOfMonthUTC_eq (t : Int) :
    startOfMonthUTC t = firstOfIdx (muOf (t / 86400000)) * 86400000 := by
  rw [startOfMonthUTC, getUTCFullYear, getUTCMonth, DateUTC_eq]
  rw [show 12 * yearOf (t / 86400000) + (monthOf (t / 86400000) - 1) =
    muOf (t / 86400000) by rw [muOf]; ring]
  ring

theorem endOfMonthUTC_eq (t : Int) :
    endOfMonthUTC t = firstOfIdx (muOf (t / 86400000) + 1) * 86400000 - 1 := by
  rw [endOfMonthUTC, getUTCFullYear, getUTCMonth, DateUTC_eq]
  rw [show 12 * yearOf (t / 86400000) + (monthOf (t / 86400000) - 1 + 1) =
    muOf (t / 86400000) + 1 by rw [muOf]; ring]
  rw [endOfDayUTC_eq]
  omega

theorem setUTCMonth_eq (t n : Int) :
    setUTCMonth t n =
      (firstOfIdx (12 * yearOf (t / 86400000) + n) + (dayOf (t / 86400000) - 1)) *
        86400000 + t % 86400000 := by
  rw [setUTCMonth, getUTCFullYear, getUTCDate, DateUTC_eq]
  ring

theorem addMonthsUTC_eq (t k : Int) :
    addMonthsUTC t k =
      (firstOfIdx (muOf (t / 86400000) + k) + (dayOf (t / 86400000) - 1)) *
        86400000 := by
  rw [addMonthsUTC]
  rw [show DateUTC (getUTCFullYear t) (getUTCMonth t) (getUTCDate t) 0 0 0 0 =
    startOfDayUTC t from rfl]
  rw [setUTCMonth_eq, getUTCMonth, startOfDayUTC_eq]
  have h1 : t / 86400000 * 86400000 / 86400000 = t / 86400000 := by omega
  have h2 : t / 86400000 * 86400000 % 86400000 = 0 := by omega
  rw [h1, h2]
  rw [show 12 * yearOf (t / 86400000) + (monthOf (t / 86400000) - 1 + k) =
    muOf (t / 86400000) + k by rw [muOf]; ring]
  ring

theorem startOfISOWeekUTC_eq (t : Int) :
    startOfISOWeekUTC t =
      (t / 86400000 - (t / 86400000 + 3) % 7) * 86400000 := by
  rw [startOfISOWeekUTC]
  rw [show DateUTC (getUTCFullYear t) (getUTCMonth t) (getUTCDate t) 0 0 0 0 =
    startOfDayUTC t from rfl]
  rw [setUTCDate_eq, startOfDayUTC_eq, startOfDayUTC_eq, getUTCDate, getUTCDay]
  have h1 : t / 86400000 * 86400000 / 86400000 = t / 86400000 := by omega
  have h2 : t / 86400000 * 86400000 % 86400000 = 0 := by omega
  rw [h1, h2]
  have h3 : ∀ a : Int, (a * 86400000 + 0) / 86400000 = a := by intro a; omega
  rw [h3]
  rcases eq_or_ne ((t / 86400000 + 4) % 7) 0 with h | h
  case inl => rw [if_pos h]; omega
  case inr => rw [if_neg h]; omega

theorem endOfISOWeekUTC_eq (t : Int) :
    endOfISOWeekUTC t =
      (t / 86400000 - (t / 86400000 + 3) % 7 + 7) * 86400000 - 1 := by
  rw [endOfISOWeekUTC]
  rw [setUTCDate_eq, startOfISOWeekUTC_eq, endOfDayUTC_eq, getUTCDate]
  omega

theorem lt_addMonthsUTC_one (t : Int) : t < addMonthsUTC t 1 := by
  rw [addMonthsUTC_eq]
  have h1 := lt_first_next (t / 86400000)
  have h2 := day_bounds (t / 86400000)
  have h3 := first_muOf_le (t / 86400000)
  omega

theorem lt_addDaysUTC (t k : Int) (h : 1 ≤ k) : t < addDaysUTC t k := by
  rw [addDaysUTC_eq]
  omega

end DashboardModel

namespace DashboardModel

/-! ## Generic properties of the enumeration loop

`P` is the alignment invariant of a granularity (midnight, Monday midnight,
first-of-month midnight); `mk` produces the bucket `[c, adv c - 1]` on
aligned cursors and `adv` preserves alignment and strictly increases. -/

theorem enumBuckets_eq_nil (mk : Int → Bucket) (adv : Int → Int) {cursor rE : Int}
    (h : rE < cursor) : enumBuckets mk adv cursor rE = [] := by
  rw [enumBuckets.eq_def, dif_neg (by omega)]

theorem enumBuckets_eq_cons (mk : Int → Bucket) (adv : Int → Int) {cursor rE : Int}
    (h : cursor ≤ rE) (h2 : cursor < adv cursor) :
    enumBuckets mk adv cursor rE = mk cursor :: enumBuckets mk adv (adv cursor) rE := by
  rw [enumBuckets.eq_def, dif_pos h, dif_pos h2]

section EnumSpec

variable {mk : Int → Bucket} {adv : Int → Int} {P : Int → Prop} {rE : Int}

/-- Each instant is covered by exactly one bucket of the enumeration if it
lies in `[cursor, rE]`, and by none otherwise. -/
theorem enumBuckets_countP
    (hadv : ∀ c, P c → c < adv c)
    (hP : ∀ c, P c → P (adv c))
    (hmk : ∀ c, P c → mk c = ⟨c, adv c - 1⟩)
    (hrE : ∀ c, P c → c ≤ rE → rE < adv c → adv c = rE + 1) :
    ∀ cursor, P cursor → ∀ t : Int,
      (enumBuckets mk adv cursor rE).countP
          (fun b => decide (b.start ≤ t ∧ t ≤ b.stop)) =
        if cursor ≤ t ∧ t ≤ rE then 1 else 0 := by
  have main : ∀ n : Nat, ∀ cursor, (rE + 1 - cursor).toNat ≤ n → P cursor →
      ∀ t : Int,
      (enumBuckets mk adv cursor rE).countP
          (fun b => decide (b.start ≤ t ∧ t ≤ b.stop)) =
        if cursor ≤ t ∧ t ≤ rE then 1 else 0 := by
    intro n
    induction n with
    | zero =>
      intro cursor hle hc t
      rw [enumBuckets_eq_nil mk adv (by omega)]
      simp only [List.countP_nil]
      rw [if_neg (by omega)]
    | succ n ih =>
      intro cursor hle hc t
      by_cases h : cursor ≤ rE
      case pos =>
        rw [enumBuckets_eq_cons mk adv h (hadv cursor hc), List.countP_cons,
          hmk cursor hc,
          ih (adv cursor) (by have := hadv cursor hc; omega) (hP cursor hc) t]
        have h1 := hadv cursor hc
        have h2 : adv cursor ≤ rE ∨ adv cursor = rE + 1 := by
          rcases le_or_lt (adv cursor) rE with hx | hx
          case inl => exact Or.inl hx
          case inr => exact Or.inr (hrE cursor hc h hx)
        simp only [decide_eq_true_eq]
        split_ifs <;> omega
      case neg =>
        rw [enumBuckets_eq_nil mk adv (by omega)]
        simp only [List.countP_nil]
        rw [if_neg (by omega)]
  exact fun cursor hc t => main ((rE + 1 - cursor).toNat) cursor (le_refl _) hc t

/-- Every emitted bucket is `[c, adv c - 1]` for an aligned `c` within the
range. -/
theorem enumBuckets_mem
    (hadv : ∀ c, P c → c < adv c)
    (hP : ∀ c, P c → P (adv c))
    (hmk : ∀ c, P c → mk c = ⟨c, adv c - 1⟩) :
    ∀ cursor, P cursor → ∀ b ∈ enumBuckets mk adv cursor rE,
      ∃ c, P c ∧ b = ⟨c, adv c - 1⟩ ∧ cursor ≤ c ∧ c ≤ rE := by
  have main : ∀ n : Nat, ∀ cursor, (rE + 1 - cursor).toNat ≤ n → P cursor →
      ∀ b ∈ enumBuckets mk adv cursor rE,
      ∃ c, P c ∧ b = ⟨c, adv c - 1⟩ ∧ cursor ≤ c ∧ c ≤ rE := by
    intro n
    induction n with
    | zero =>
      intro cursor hle hc b hb
      rw [enumBuckets_eq_nil mk adv (by omega)] at hb
      exact absurd hb (List.not_mem_nil b)
    | succ n ih =>
      intro cursor hle hc b hb
      by_cases h : cursor ≤ rE
      case pos =>
        rw [enumBuckets_eq_cons mk adv h (hadv cursor hc), hmk cursor hc] at hb
        rcases List.mem_cons.mp hb with hb1 | hb2
        case inl => exact ⟨cursor, hc, hb1, le_refl _, h⟩
        case inr =>
          obtain ⟨c, hc2, he, hge, hle2⟩ :=
            ih (adv cursor) (by have := hadv cursor hc; omega) (hP cursor hc) b hb2
          exact ⟨c, hc2, he, by have := hadv cursor hc; omega, hle2⟩
      case neg =>
        rw [enumBuckets_eq_nil mk adv (by omega)] at hb
        exact absurd hb (List.not_mem_nil b)
  exact fun cursor hc b hb => main ((rE + 1 - cursor).toNat) cursor (le_refl _) hc b hb

/-- Consecutive buckets are adjacent: each bucket's `end` plus one is the
next bucket's `start`. -/
theorem enumBuckets_chain
    (hadv : ∀ c, P c → c < adv c)
    (hP : ∀ c, P c → P (adv c))
    (hmk : ∀ c, P c → mk c = ⟨c, adv c - 1⟩) :
    ∀ cursor, P cursor →
      List.Chain' (fun b1 b2 => b1.stop + 1 = b2.start)
        (enumBuckets mk adv cursor rE) := by
  have main : ∀ n : Nat, ∀ cursor, (rE + 1 - cursor).toNat ≤ n → P cursor →
      List.Chain' (fun b1 b2 => b1.stop + 1 = b2.start)
        (enumBuckets mk adv cursor rE) := by
    intro n
    induction n with
    | zero =>
      intro cursor hle hc
      rw [enumBuckets_eq_nil mk adv (by omega)]
      exact List.chain'_nil
    | succ n ih =>
      intro cursor hle hc
      by_cases h : cursor ≤ rE
      case pos =>
        rw [enumBuckets_eq_cons mk adv h (hadv cursor hc)]
        apply List.chain'_cons'.mpr
        constructor
        case left =>
          intro b2 hb2
          by_cases h2 : adv cursor ≤ rE
          case pos =>
            rw [enumBuckets_eq_cons mk adv h2 (hadv _ (hP cursor hc)),
              hmk _ (hP cursor hc)] at hb2
            simp only [List.head?_cons, Option.mem_def, Option.some.injEq] at hb2
            rw [hmk cursor hc, ← hb2]
            show adv cursor - 1 + 1 = adv cursor
            omega
          case neg =>
            rw [enumBuckets_eq_nil mk adv (by omega)] at hb2
            simp only [List.head?_nil, Option.mem_def] at hb2
            exact absurd hb2 (by simp)
        case right =>
          exact ih (adv cursor) (by have := hadv cursor hc; omega) (hP cursor hc)
      case neg =>
        rw [enumBuckets_eq_nil mk adv (by omega)]
        exact List.chain'_nil
  exact fun cursor hc => main ((rE + 1 - cursor).toNat) cursor (le_refl _) hc

/-- When the range is non-trivial the enumeration starts with the bucket at
the cursor. -/
theorem enumBuckets_head
    (hadv : ∀ c, P c → c < adv c)
    (hmk : ∀ c, P c → mk c = ⟨c, adv c - 1⟩) (cursor : Int) (hc : P cursor)
    (h : cursor ≤ rE) :
    enumBuckets mk adv cursor rE =
      Bucket.mk cursor (adv cursor - 1) :: enumBuckets mk adv (adv cursor) rE := by
  rw [enumBuckets_eq_cons mk adv h (hadv cursor hc), hmk cursor hc]

/-- The last bucket of a non-trivial enumeration ends exactly at `rE`. -/
theorem enumBuckets_last
    (hadv : ∀ c, P c → c < adv c)
    (hP : ∀ c, P c → P (adv c))
    (hmk : ∀ c, P c → mk c = ⟨c, adv c - 1⟩)
    (hrE : ∀ c, P c → c ≤ rE → rE < adv c → adv c = rE + 1) :
    ∀ cursor, P cursor → cursor ≤ rE →
      ∃ c, P c ∧ adv c = rE + 1 ∧
        (enumBuckets mk adv cursor rE).getLast? = some ⟨c, rE⟩ := by
  have main : ∀ n : Nat, ∀ cursor, (rE + 1 - cursor).toNat ≤ n → P cursor →
      cursor ≤ rE →
      ∃ c, P c ∧ adv c = rE + 1 ∧
        (enumBuckets mk adv cursor rE).getLast? = some ⟨c, rE⟩ := by
    intro n
    induction n with
    | zero => intro cursor hle hc h; omega
    | succ n ih =>
      intro cursor hle hc h
      rw [enumBuckets_eq_cons mk adv h (hadv cursor hc), hmk cursor hc]
      by_cases h2 : adv cursor ≤ rE
      case pos =>
        obtain ⟨c, hc2, he, hlast⟩ :=
          ih (adv cursor) (by have := hadv cursor hc; omega) (hP cursor hc) h2
        refine ⟨c, hc2, he, ?_⟩
        rcases hh : enumBuckets mk adv (adv cursor) rE with _ | ⟨b, bs⟩
        case nil => rw [hh] at hlast; simp at hlast
        case cons =>
          rw [hh] at hlast
          rw [List.getLast?_cons_cons]
          exact hlast
      case neg =>
        have hlt : rE < adv cursor := by omega
        have he := hrE cursor hc h hlt
        refine ⟨cursor, hc, he, ?_⟩
        rw [enumBuckets_eq_nil mk adv hlt,
          show adv cursor - 1 = rE by omega]
        rfl
  exact fun cursor hc h => main ((rE + 1 - cursor).toNat) cursor (le_refl _) hc h

end EnumSpec

end DashboardModel

namespace DashboardModel

/-! ## Step size of months and alignment instances for the three granularities -/

theorem firstOfIdx_step (μ : Int) : firstOfIdx μ + 28 ≤ firstOfIdx (μ + 1) := by
  obtain ⟨q, r, hqr, hr0, hr1⟩ : ∃ q r, μ = 12 * q + r ∧ 0 ≤ r ∧ r < 12 :=
    ⟨μ / 12, μ % 12, by omega, by omega, by omega⟩
  have e1 : firstOfIdx μ = daysFromCivil q (r + 1) 1 := by
    rw [show μ = 12 * q + (r + 1) - 1 by omega, firstOfIdx_eq q (r + 1) (by omega) (by omega)]
  rcases lt_or_le r 11 with hr | hr
  case inl =>
    have e2 : firstOfIdx (μ + 1) = daysFromCivil q (r + 2) 1 := by
      rw [show μ + 1 = 12 * q + (r + 2) - 1 by omega,
        firstOfIdx_eq q (r + 2) (by omega) (by omega)]
    rw [e1, e2]
    simp only [daysFromCivil]
    interval_cases r <;> omega
  case inr =>
    have hr11 : r = 11 := by omega
    have e2 : firstOfIdx (μ + 1) = daysFromCivil (q + 1) 1 1 := by
      rw [show μ + 1 = 12 * (q + 1) + 1 - 1 by omega,
        firstOfIdx_eq (q + 1) 1 (by omega) (by omega)]
    rw [e1, e2, hr11]
    simp only [daysFromCivil]
    omega

theorem day_hadv (c : Int) : c < addDaysUTC c 1 := by
  rw [addDaysUTC_eq]; omega

theorem day_hP (c : Int) (hc : c % 86400000 = 0) : addDaysUTC c 1 % 86400000 = 0 := by
  rw [addDaysUTC_eq]; omega

theorem day_hmk (c : Int) (hc : c % 86400000 = 0) :
    Bucket.mk (startOfDayUTC c) (endOfDayUTC c) = ⟨c, addDaysUTC c 1 - 1⟩ := by
  rw [startOfDayUTC_eq, endOfDayUTC_eq, addDaysUTC_eq]
  simp only [Bucket.mk.injEq]
  omega

theorem day_hrE (e : Int) (c : Int) (hc : c % 86400000 = 0)
    (h1 : c ≤ endOfDayUTC e) (h2 : endOfDayUTC e < addDaysUTC c 1) :
    addDaysUTC c 1 = endOfDayUTC e + 1 := by
  rw [endOfDayUTC_eq] at h1 h2 ⊢
  rw [addDaysUTC_eq] at h2 ⊢
  omega

theorem startOfDayUTC_aligned (t : Int) : startOfDayUTC t % 86400000 = 0 := by
  rw [startOfDayUTC_eq]; omega

theorem week_hadv (c : Int) : c < addDaysUTC c 7 := by
  rw [addDaysUTC_eq]; omega

theorem week_hP (c : Int) (hc : c % 604800000 = 345600000) :
    addDaysUTC c 7 % 604800000 = 345600000 := by
  rw [addDaysUTC_eq]; omega

theorem week_hmk (c : Int) (hc : c % 604800000 = 345600000) :
    Bucket.mk (startOfISOWeekUTC c) (endOfISOWeekUTC c) = ⟨c, addDaysUTC c 7 - 1⟩ := by
  rw [startOfISOWeekUTC_eq, endOfISOWeekUTC_eq, addDaysUTC_eq]
  simp only [Bucket.mk.injEq]
  omega

theorem week_hrE (e : Int) (c : Int) (hc : c % 604800000 = 345600000)
    (h1 : c ≤ endOfISOWeekUTC e) (h2 : endOfISOWeekUTC e < addDaysUTC c 7) :
    addDaysUTC c 7 = endOfISOWeekUTC e + 1 := by
  rw [endOfISOWeekUTC_eq] at h1 h2 ⊢
  rw [addDaysUTC_eq] at h2 ⊢
  omega

theorem startOfISOWeekUTC_aligned (t : Int) :
    startOfISOWeekUTC t % 604800000 = 345600000 := by
  rw [startOfISOWeekUTC_eq]
  omega

theorem month_hadv (c : Int) : c < addMonthsUTC c 1 := lt_addMonthsUTC_one c

theorem month_hP (c : Int) (hc : c % 86400000 = 0 ∧ dayOf (c / 86400000) = 1) :
    addMonthsUTC c 1 % 86400000 = 0 ∧ dayOf (addMonthsUTC c 1 / 86400000) = 1 := by
  rw [addMonthsUTC_eq, hc.2]
  constructor
  case left => omega
  case right =>
    rw [show (firstOfIdx (muOf (c / 86400000) + 1) + (1 - 1)) * 86400000 / 86400000 =
      firstOfIdx (muOf (c / 86400000) + 1) by omega]
    exact dayOf_firstOfIdx _

theorem month_first_eq (c : Int) (hc : c % 86400000 = 0 ∧ dayOf (c / 86400000) = 1) :
    firstOfIdx (muOf (c / 86400000)) = c / 86400000 := by
  have h := firstOfIdx_muOf_eq (c / 86400000)
  omega

theorem month_hmk (c : Int) (hc : c % 86400000 = 0 ∧ dayOf (c / 86400000) = 1) :
    Bucket.mk (startOfMonthUTC c) (endOfMonthUTC c) = ⟨c, addMonthsUTC c 1 - 1⟩ := by
  rw [startOfMonthUTC_eq, endOfMonthUTC_eq, addMonthsUTC_eq, month_first_eq c hc, hc.2]
  simp only [Bucket.mk.injEq]
  omega

theorem month_hrE (e : Int) (c : Int) (hc : c % 86400000 = 0 ∧ dayOf (c / 86400000) = 1)
    (h1 : c ≤ endOfMonthUTC e) (h2 : endOfMonthUTC e < addMonthsUTC c 1) :
    addMonthsUTC c 1 = endOfMonthUTC e + 1 := by
  rw [endOfMonthUTC_eq] at h1 h2 ⊢
  rw [addMonthsUTC_eq, hc.2] at h2 ⊢
  have hfc := month_first_eq c hc
  have ha : firstOfIdx (muOf (c / 86400000)) < firstOfIdx (muOf (e / 86400000) + 1) := by
    omega
  have hb : firstOfIdx (muOf (e / 86400000) + 1) ≤ firstOfIdx (muOf (c / 86400000) + 1) := by
    omega
  have ha2 : muOf (c / 86400000) < muOf (e / 86400000) + 1 := firstOfIdx_lt_iff.mp ha
  have hb2 : muOf (e / 86400000) + 1 ≤ muOf (c / 86400000) + 1 := by
    by_contra hcon
    have := firstOfIdx_mono (show muOf (c / 86400000) + 1 < muOf (e / 86400000) + 1 by omega)
    omega
  have : muOf (c / 86400000) = muOf (e / 86400000) := by omega
  rw [this]
  omega

theorem startOfMonthUTC_aligned (t : Int) :
    startOfMonthUTC t % 86400000 = 0 ∧
      dayOf (startOfMonthUTC t / 86400000) = 1 := by
  rw [startOfMonthUTC_eq]
  constructor
  case left => omega
  case right =>
    rw [show firstOfIdx (muOf (t / 86400000)) * 86400000 / 86400000 =
      firstOfIdx (muOf (t / 86400000)) by omega]
    exact dayOf_firstOfIdx _

end DashboardModel

/-! ## Characterizations of buildBuckets branches, defaulting bounds, idempotence -/

namespace DashboardModel

theorem buildBuckets_day_parsed (ss es : String) (s e : Int) (now : Int)
    (hs : toUTCDateOnly ss = some (some s)) (he : toUTCDateOnly es = some (some e)) :
    buildBuckets (some ss) (some es) "day" now =
      { rangeStart := some (startOfDayUTC s), rangeEnd := some (endOfDayUTC e),
        buckets := enumBuckets (fun d => ⟨startOfDayUTC d, endOfDayUTC d⟩)
          (fun d => addDaysUTC d 1) (startOfDayUTC s) (endOfDayUTC e) } := by
  simp only [buildBuckets, hs, he, Option.map]
  rw [if_neg (show ¬("day" : String) = "month" by decide),
    if_neg (show ¬("day" : String) = "week" by decide)]
  rfl

theorem buildBuckets_week_parsed (ss es : String) (s e : Int) (now : Int)
    (hs : toUTCDateOnly ss = some (some s)) (he : toUTCDateOnly es = some (some e)) :
    buildBuckets (some ss) (some es) "week" now =
      { rangeStart := some (startOfISOWeekUTC s), rangeEnd := some (endOfISOWeekUTC e),
        buckets := enumBuckets (fun d => ⟨startOfISOWeekUTC d, endOfISOWeekUTC d⟩)
          (fun d => addDaysUTC d 7) (startOfISOWeekUTC s) (endOfISOWeekUTC e) } := by
  simp only [buildBuckets, hs, he, Option.map]
  rw [if_neg (show ¬("week" : String) = "month" by decide)]
  simp only [if_true]
  rfl

theorem buildBuckets_month_parsed (ss es : String) (s e : Int) (now : Int)
    (hs : toUTCDateOnly ss = some (some s)) (he : toUTCDateOnly es = some (some e)) :
    buildBuckets (some ss) (some es) "month" now =
      { rangeStart := some (startOfMonthUTC s), rangeEnd := some (endOfMonthUTC e),
        buckets := enumBuckets (fun d => ⟨startOfMonthUTC d, endOfMonthUTC d⟩)
          (fun d => addMonthsUTC d 1) (startOfMonthUTC s) (endOfMonthUTC e) } := by
  simp only [buildBuckets, hs, he, Option.map]
  simp only [if_true]
  rfl

theorem buildBuckets_none_day (now : Int) :
    buildBuckets none none "day" now =
      { rangeStart := some ((now / 86400000 - 6) * 86400000),
        rangeEnd := some (now / 86400000 * 86400000 + 86399999),
        buckets := enumBuckets (fun d => ⟨startOfDayUTC d, endOfDayUTC d⟩)
          (fun d => addDaysUTC d 1) ((now / 86400000 - 6) * 86400000)
          (now / 86400000 * 86400000 + 86399999) } := by
  have hm : (("day" : String) = "month") = False := by decide
  have hw : (("day" : String) = "week") = False := by decide
  simp only [buildBuckets, Option.map, hm, hw, if_false]
  have h1 : startOfDayUTC (setUTCDate (startOfDayUTC now)
      (getUTCDate (startOfDayUTC now) - 6)) = (now / 86400000 - 6) * 86400000 := by
    rw [setUTCDate_eq, startOfDayUTC_eq, getUTCDate, startOfDayUTC_eq]
    have e1 : now / 86400000 * 86400000 / 86400000 = now / 86400000 := by omega
    have e2 : now / 86400000 * 86400000 % 86400000 = 0 := by omega
    rw [e1, e2]
    have e3 : (now / 86400000 + (dayOf (now / 86400000) - 6 - dayOf (now / 86400000))) *
        86400000 + 0 = (now / 86400000 - 6) * 86400000 := by ring
    rw [e3]
    omega
  have h2 : startOfDayUTC ((now / 86400000 - 6) * 86400000) =
      (now / 86400000 - 6) * 86400000 := by
    rw [startOfDayUTC_eq]; omega
  have h3 : endOfDayUTC (startOfDayUTC now) = now / 86400000 * 86400000 + 86399999 := by
    rw [endOfDayUTC_eq, startOfDayUTC_eq]
    have e1 : now / 86400000 * 86400000 / 86400000 = now / 86400000 := by omega
    rw [e1]
  rw [h1, h2, h3]
  rfl

end DashboardModel

namespace DashboardModel

theorem buildBuckets_null_start (ss : String) (ed : Option String) (bucket : String)
    (now : Int) (h : toUTCDateOnly ss = none) :
    buildBuckets (some ss) ed bucket now = buildBuckets none ed bucket now := by
  simp only [buildBuckets, h]

theorem buildBuckets_null_end (sd : Option String) (es : String) (bucket : String)
    (now : Int) (h : toUTCDateOnly es = none) :
    buildBuckets sd (some es) bucket now = buildBuckets sd none bucket now := by
  simp only [buildBuckets, h]

theorem buildBuckets_start_none_month (ed : Option String) (now e0 : Int)
    (h0 : (match ed with
           | none => some (startOfDayUTC now)
           | some es =>
             match toUTCDateOnly es with
             | none => some (startOfDayUTC now)
             | some v => v) = some e0) :
    buildBuckets none ed "month" now =
      { rangeStart := some (startOfMonthUTC (startOfMonthUTC
          (setUTCMonth e0 (getUTCMonth e0 - 5)))),
        rangeEnd := some (endOfMonthUTC e0),
        buckets := enumBuckets (fun d => ⟨startOfMonthUTC d, endOfMonthUTC d⟩)
          (fun d => addMonthsUTC d 1)
          (startOfMonthUTC (startOfMonthUTC (setUTCMonth e0 (getUTCMonth e0 - 5))))
          (endOfMonthUTC e0) } := by
  rcases ed with _ | es
  case none =>
    simp only at h0
    obtain rfl : startOfDayUTC now = e0 := by
      simpa using h0
    simp only [buildBuckets, Option.map, if_true]
    rfl
  case some =>
    rcases hx : toUTCDateOnly es with _ | v
    case none =>
      simp only [hx] at h0
      obtain rfl : startOfDayUTC now = e0 := by simpa using h0
      simp only [buildBuckets, hx, Option.map, if_true]
      rfl
    case some =>
      rcases v with _ | e
      case none =>
        simp only [hx] at h0
        exact absurd h0 (by simp)
      case some =>
        simp only [hx] at h0
        obtain rfl : e = e0 := by simpa using h0
        simp only [buildBuckets, hx, Option.map, if_true]
        rfl

end DashboardModel

namespace DashboardModel

theorem buildBuckets_start_none_week (ed : Option String) (now e0 : Int)
    (h0 : (match ed with
           | none => some (startOfDayUTC now)
           | some es =>
             match toUTCDateOnly es with
             | none => some (startOfDayUTC now)
             | some v => v) = some e0) :
    buildBuckets none ed "week" now =
      { rangeStart := some (startOfISOWeekUTC (startOfISOWeekUTC
          (setUTCDate e0 (getUTCDate e0 - 7 * 11)))),
        rangeEnd := some (endOfISOWeekUTC e0),
        buckets := enumBuckets (fun d => ⟨startOfISOWeekUTC d, endOfISOWeekUTC d⟩)
          (fun d => addDaysUTC d 7)
          (startOfISOWeekUTC (startOfISOWeekUTC (setUTCDate e0 (getUTCDate e0 - 7 * 11))))
          (endOfISOWeekUTC e0) } := by
  have hm : (("week" : String) = "month") = False := by decide
  rcases ed with _ | es
  case none =>
    simp only at h0
    obtain rfl : startOfDayUTC now = e0 := by simpa using h0
    simp only [buildBuckets, Option.map, hm, if_false, if_true]
    rfl
  case some =>
    rcases hx : toUTCDateOnly es with _ | v
    case none =>
      simp only [hx] at h0
      obtain rfl : startOfDayUTC now = e0 := by simpa using h0
      simp only [buildBuckets, hx, Option.map, hm, if_false, if_true]
      rfl
    case some =>
      rcases v with _ | e
      case none =>
        simp only [hx] at h0
        exact absurd h0 (by simp)
      case some =>
        simp only [hx] at h0
        obtain rfl : e = e0 := by simpa using h0
        simp only [buildBuckets, hx, Option.map, hm, if_false, if_true]
        rfl

theorem buildBuckets_start_none_day (ed : Option String) (now e0 : Int)
    (h0 : (match ed with
           | none => some (startOfDayUTC now)
           | some es =>
             match toUTCDateOnly es with
             | none => some (startOfDayUTC now)
             | some v => v) = some e0) :
    buildBuckets none ed "day" now =
      { rangeStart := some (startOfDayUTC (startOfDayUTC
          (setUTCDate e0 (getUTCDate e0 - 6)))),
        rangeEnd := some (endOfDayUTC e0),
        buckets := enumBuckets (fun d => ⟨startOfDayUTC d, endOfDayUTC d⟩)
          (fun d => addDaysUTC d 1)
          (startOfDayUTC (startOfDayUTC (setUTCDate e0 (getUTCDate e0 - 6))))
          (endOfDayUTC e0) } := by
  have hm : (("day" : String) = "month") = False := by decide
  have hw : (("day" : String) = "week") = False := by decide
  rcases ed with _ | es
  case none =>
    simp only at h0
    obtain rfl : startOfDayUTC now = e0 := by simpa using h0
    simp only [buildBuckets, Option.map, hm, hw, if_false]
    rfl
  case some =>
    rcases hx : toUTCDateOnly es with _ | v
    case none =>
      simp only [hx] at h0
      obtain rfl : startOfDayUTC now = e0 := by simpa using h0
      simp only [buildBuckets, hx, Option.map, hm, hw, if_false]
      rfl
    case some =>
      rcases v with _ | e
      case none =>
        simp only [hx] at h0
        exact absurd h0 (by simp)
      case some =>
        simp only [hx] at h0
        obtain rfl : e = e0 := by simpa using h0
        simp only [buildBuckets, hx, Option.map, hm, hw, if_false]
        rfl

theorem day_default_start_le (e : Int) :
    startOfDayUTC (startOfDayUTC (setUTCDate e (getUTCDate e - 6))) ≤ endOfDayUTC e := by
  rw [setUTCDate_eq, getUTCDate, startOfDayUTC_eq, startOfDayUTC_eq, endOfDayUTC_eq]
  omega

theorem week_default_start_le (e : Int) :
    startOfISOWeekUTC (startOfISOWeekUTC (setUTCDate e (getUTCDate e - 7 * 11))) ≤
      endOfISOWeekUTC e := by
  rw [setUTCDate_eq, getUTCDate, startOfISOWeekUTC_eq, startOfISOWeekUTC_eq,
    endOfISOWeekUTC_eq]
  omega

theorem month_default_start_le (e : Int) :
    startOfMonthUTC (startOfMonthUTC (setUTCMonth e (getUTCMonth e - 5))) ≤
      endOfMonthUTC e := by
  rw [setUTCMonth_eq, getUTCMonth, startOfMonthUTC_eq, startOfMonthUTC_eq, endOfMonthUTC_eq]
  rw [show 12 * yearOf (e / 86400000) + (monthOf (e / 86400000) - 1 - 5) =
    muOf (e / 86400000) - 5 by rw [muOf]; ring]
  have hd := day_bounds (e / 86400000)
  have hX : ((firstOfIdx (muOf (e / 86400000) - 5) + (dayOf (e / 86400000) - 1)) *
      86400000 + e % 86400000) / 86400000 =
      firstOfIdx (muOf (e / 86400000) - 5) + (dayOf (e / 86400000) - 1) := by omega
  rw [hX]
  set X := firstOfIdx (muOf (e / 86400000) - 5) + (dayOf (e / 86400000) - 1) with hXdef
  have hY : firstOfIdx (muOf X) * 86400000 / 86400000 = firstOfIdx (muOf X) := by omega
  rw [hY, muOf_firstOfIdx]
  have s1 := firstOfIdx_step (muOf (e / 86400000) - 5)
  have s2 := firstOfIdx_step (muOf (e / 86400000) - 4)
  have s3 := firstOfIdx_step (muOf (e / 86400000) - 3)
  have s4 := firstOfIdx_step (muOf (e / 86400000) - 2)
  have s5 := firstOfIdx_step (muOf (e / 86400000) - 1)
  have s6 := firstOfIdx_step (muOf (e / 86400000))
  rw [show muOf (e / 86400000) - 5 + 1 = muOf (e / 86400000) - 4 by ring] at s1
  rw [show muOf (e / 86400000) - 4 + 1 = muOf (e / 86400000) - 3 by ring] at s2
  rw [show muOf (e / 86400000) - 3 + 1 = muOf (e / 86400000) - 2 by ring] at s3
  rw [show muOf (e / 86400000) - 2 + 1 = muOf (e / 86400000) - 1 by ring] at s4
  rw [show muOf (e / 86400000) - 1 + 1 = muOf (e / 86400000) by ring] at s5
  have hXlt : X < firstOfIdx (muOf (e / 86400000) + 1) := by omega
  have hmu : muOf X < muOf (e / 86400000) + 1 := by
    by_contra hcon
    have h1 : firstOfIdx (muOf (e / 86400000) + 1) ≤ firstOfIdx (muOf X) :=
      firstOfIdx_le_mono (by omega)
    have h2 := first_muOf_le X
    omega
  have := firstOfIdx_mono hmu
  omega

theorem startOfDayUTC_idem (t : Int) :
    startOfDayUTC (startOfDayUTC t) = startOfDayUTC t := by
  rw [startOfDayUTC_eq, startOfDayUTC_eq]
  omega

theorem endOfDayUTC_idem (t : Int) :
    endOfDayUTC (endOfDayUTC t) = endOfDayUTC t := by
  rw [endOfDayUTC_eq, endOfDayUTC_eq]
  omega

theorem startOfISOWeekUTC_idem (t : Int) :
    startOfISOWeekUTC (startOfISOWeekUTC t) = startOfISOWeekUTC t := by
  rw [startOfISOWeekUTC_eq, startOfISOWeekUTC_eq]
  omega

theorem endOfISOWeekUTC_idem (t : Int) :
    endOfISOWeekUTC (endOfISOWeekUTC t) = endOfISOWeekUTC t := by
  rw [endOfISOWeekUTC_eq, endOfISOWeekUTC_eq]
  omega

theorem startOfMonthUTC_idem (t : Int) :
    startOfMonthUTC (startOfMonthUTC t) = startOfMonthUTC t := by
  rw [startOfMonthUTC_eq, startOfMonthUTC_eq]
  have h1 : firstOfIdx (muOf (t / 86400000)) * 86400000 / 86400000 =
      firstOfIdx (muOf (t / 86400000)) := by omega
  rw [h1, muOf_firstOfIdx]

theorem endOfMonthUTC_idem (t : Int) :
    endOfMonthUTC (endOfMonthUTC t) = endOfMonthUTC t := by
  rw [endOfMonthUTC_eq, endOfMonthUTC_eq]
  have h1 : (firstOfIdx (muOf (t / 86400000) + 1) * 86400000 - 1) / 86400000 =
      firstOfIdx (muOf (t / 86400000) + 1) - 1 := by omega
  rw [h1]
  have h2 : muOf (firstOfIdx (muOf (t / 86400000) + 1) - 1) = muOf (t / 86400000) := by
    apply muOf_eq_of_mem
    case h1 =>
      have := firstOfIdx_mono (show muOf (t / 86400000) < muOf (t / 86400000) + 1 by omega)
      omega
    case h2 =>
      omega
  rw [h2]

end DashboardModel

namespace DashboardModel

/-! ## Aggregation and forward-fill lemmas -/


/-! ## Aggregation lemmas -/

theorem foldl_add_eq {α : Type} (f : α → Int) :
    ∀ (l : List α) (a : Int), l.foldl (fun s it => s + f it) a = a + (l.map f).sum := by
  intro l
  induction l with
  | nil => intro a; simp
  | cons x xs ih =>
    intro a
    simp only [List.foldl_cons, List.map_cons, List.sum_cons, ih]
    ring

theorem map_sum_add {α : Type} (g h : α → Int) :
    ∀ l : List α, (l.map (fun b => g b + h b)).sum = (l.map g).sum + (l.map h).sum := by
  intro l
  induction l with
  | nil => simp
  | cons x xs ih =>
    simp only [List.map_cons, List.sum_cons, ih]
    ring

theorem sum_ite_count (x v : Int) :
    ∀ bl : List Bucket,
      (bl.map (fun b => if b.start ≤ x ∧ x ≤ b.stop then v else 0)).sum =
        (bl.countP (fun b => decide (b.start ≤ x ∧ x ≤ b.stop)) : Int) * v := by
  intro bl
  induction bl with
  | nil => simp
  | cons b bs ih =>
    by_cases h : b.start ≤ x ∧ x ≤ b.stop
    case pos =>
      simp only [List.map_cons, List.sum_cons, List.countP_cons, ih, if_pos h,
        decide_eq_true_eq, h, and_self, if_true]
      push_cast
      ring
    case neg =>
      simp only [List.map_cons, List.sum_cons, List.countP_cons, ih, if_neg h,
        decide_eq_true_eq, h, if_false]
      push_cast
      ring

theorem sum_filter_swap {α : Type} (key : α → Int) (f : α → Int) (bl : List Bucket) :
    ∀ recs : List α,
      (∀ r ∈ recs,
        bl.countP (fun b => decide (b.start ≤ key r ∧ key r ≤ b.stop)) = 1) →
      (bl.map (fun b =>
        ((recs.filter (fun r => decide (b.start ≤ key r) && decide (key r ≤ b.stop))).map
          f).sum)).sum = (recs.map f).sum := by
  intro recs
  induction recs with
  | nil => intro _; simp
  | cons r rs ih =>
    intro h
    have hr := h r (List.mem_cons_self r rs)
    have hrs := fun x hx => h x (List.mem_cons_of_mem r hx)
    have step : ∀ b : Bucket,
        (((r :: rs).filter
            (fun q => decide (b.start ≤ key q) && decide (key q ≤ b.stop))).map f).sum =
          (if b.start ≤ key r ∧ key r ≤ b.stop then f r else 0) +
            ((rs.filter
              (fun q => decide (b.start ≤ key q) && decide (key q ≤ b.stop))).map f).sum := by
      intro b
      rw [List.filter_cons]
      by_cases hb : b.start ≤ key r ∧ key r ≤ b.stop
      case pos =>
        rw [if_pos (by simp [hb.1, hb.2]), if_pos hb]
        simp only [List.map_cons, List.sum_cons]
      case neg =>
        rw [if_neg (by simpa using hb), if_neg hb]
        ring
    calc (bl.map (fun b =>
            (((r :: rs).filter
              (fun q => decide (b.start ≤ key q) && decide (key q ≤ b.stop))).map f).sum)).sum
        = (bl.map (fun b =>
            (if b.start ≤ key r ∧ key r ≤ b.stop then f r else 0) +
              ((rs.filter
                (fun q => decide (b.start ≤ key q) && decide (key q ≤ b.stop))).map
                f).sum)).sum := by
          rw [List.map_congr_left (fun b _ => step b)]
      _ = (bl.map (fun b => if b.start ≤ key r ∧ key r ≤ b.stop then f r else 0)).sum +
            (bl.map (fun b =>
              ((rs.filter
                (fun q => decide (b.start ≤ key q) && decide (key q ≤ b.stop))).map
                f).sum)).sum := map_sum_add _ _ bl
      _ = ((r :: rs).map f).sum := by
          rw [sum_ite_count, hr, ih hrs]
          simp only [List.map_cons, List.sum_cons]
          push_cast
          ring

theorem sum_ite_swap {α : Type} (key : α → Int) (bl : List Bucket) :
    ∀ recs : List α,
      (∀ r ∈ recs,
        bl.countP (fun b => decide (b.start ≤ key r ∧ key r ≤ b.stop)) = 1) →
      (bl.map (fun b =>
        (recs.map (fun q => if b.start ≤ key q ∧ key q ≤ b.stop then (1 : Int) else 0)).sum)).sum
        = (recs.length : Int) := by
  intro recs
  induction recs with
  | nil => intro _; simp
  | cons r rs ih =>
    intro h
    have hr := h r (List.mem_cons_self r rs)
    have hrs := fun x hx => h x (List.mem_cons_of_mem r hx)
    have step : ∀ b : Bucket,
        ((r :: rs).map (fun q => if b.start ≤ key q ∧ key q ≤ b.stop then (1 : Int) else 0)).sum =
          (if b.start ≤ key r ∧ key r ≤ b.stop then (1 : Int) else 0) +
            ((rs.map (fun q => if b.start ≤ key q ∧ key q ≤ b.stop then (1 : Int) else 0)).sum) := by
      intro b
      simp only [List.map_cons, List.sum_cons]
    calc (bl.map (fun b =>
            ((r :: rs).map
              (fun q => if b.start ≤ key q ∧ key q ≤ b.stop then (1 : Int) else 0)).sum)).sum
        = (bl.map (fun b =>
            (if b.start ≤ key r ∧ key r ≤ b.stop then (1 : Int) else 0) +
              ((rs.map
                (fun q => if b.start ≤ key q ∧ key q ≤ b.stop then (1 : Int) else 0)).sum))).sum := by
          rw [List.map_congr_left (fun b _ => step b)]
      _ = (bl.map (fun b =>
              if b.start ≤ key r ∧ key r ≤ b.stop then (1 : Int) else 0)).sum +
            (bl.map (fun b =>
              (rs.map
                (fun q => if b.start ≤ key q ∧ key q ≤ b.stop then (1 : Int) else 0)).sum)).sum :=
          map_sum_add _ _ bl
      _ = ((r :: rs).length : Int) := by
          rw [sum_ite_count, hr, ih hrs]
          simp only [List.length_cons]
          push_cast
          ring

theorem sum_count_swap (bl : List Bucket) (logs : List VisitorLogRow)
    (h : ∀ l ∈ logs,
      bl.countP (fun b => decide (b.start ≤ l.visitedAt ∧ l.visitedAt ≤ b.stop)) = 1) :
    (bl.map (fun b =>
      logs.foldl
        (fun acc l => acc + if b.start ≤ l.visitedAt ∧ l.visitedAt ≤ b.stop then 1 else 0)
        0)).sum = (logs.length : Int) := by
  have conv1 : ∀ b : Bucket,
      logs.foldl
        (fun acc l => acc + if b.start ≤ l.visitedAt ∧ l.visitedAt ≤ b.stop then 1 else 0) 0 =
        (logs.map
          (fun l => if b.start ≤ l.visitedAt ∧ l.visitedAt ≤ b.stop then (1 : Int) else 0)).sum := by
    intro b
    have e := foldl_add_eq
      (fun l : VisitorLogRow =>
        if b.start ≤ l.visitedAt ∧ l.visitedAt ≤ b.stop then (1 : Int) else 0) logs 0
    simpa using e
  rw [List.map_congr_left (fun b _ => conv1 b)]
  exact sum_ite_swap (fun l => l.visitedAt) bl logs h

/-! ## fillTotals lemmas -/

theorem fillTotals_length :
    ∀ (acc : Option Int) (l : List TrendBucketOut), (fillTotals acc l).length = l.length := by
  intro acc l
  induction l generalizing acc with
  | nil => rfl
  | cons r rs ih =>
    match hr : r.totalProducts with
    | none => simp only [fillTotals, hr, List.length_cons, ih]
    | some v => simp only [fillTotals, hr, List.length_cons, ih]

theorem fillTotals_never_none :
    ∀ (acc : Option Int) (l : List TrendBucketOut) (o : TrendBucketOut),
      o ∈ fillTotals acc l → o.totalProducts ≠ none := by
  intro acc l
  induction l generalizing acc with
  | nil => intro o ho; simp [fillTotals] at ho
  | cons r rs ih =>
    intro o ho
    match hr : r.totalProducts with
    | none =>
      rw [fillTotals, hr] at ho
      rcases List.mem_cons.mp ho with h | h
      · subst h; simp
      · exact ih _ _ h
    | some v =>
      rw [fillTotals, hr] at ho
      rcases List.mem_cons.mp ho with h | h
      · subst h; simp [hr]
      · exact ih _ _ h

theorem fillTotals_other_fields :
    ∀ (acc : Option Int) (l : List TrendBucketOut) (i : Nat) (r : TrendBucketOut),
      l[i]? = some r →
      ∃ r', (fillTotals acc l)[i]? = some r' ∧ r'.startDate = r.startDate ∧
        r'.endDate = r.endDate ∧ r'.productsAdded = r.productsAdded ∧
        r'.productsRemoved = r.productsRemoved := by
  intro acc l
  induction l generalizing acc with
  | nil => intro i r h; simp at h
  | cons x xs ih =>
    intro i r h
    match hx : x.totalProducts with
    | none =>
      rw [fillTotals, hx]
      match i with
      | 0 =>
        simp only [List.getElem?_cons_zero, Option.some.injEq] at h
        subst h
        exact ⟨{ x with totalProducts := some (acc.getD 0) }, by simp, rfl, rfl, rfl, rfl⟩
      | i + 1 =>
        simp only [List.getElem?_cons_succ] at h ⊢
        exact ih _ _ _ h
    | some v =>
      rw [fillTotals, hx]
      match i with
      | 0 =>
        simp only [List.getElem?_cons_zero, Option.some.injEq] at h
        subst h
        exact ⟨x, by simp, rfl, rfl, rfl, rfl⟩
      | i + 1 =>
        simp only [List.getElem?_cons_succ] at h ⊢
        exact ih _ _ _ h

theorem fillTotals_some_kept :
    ∀ (acc : Option Int) (l : List TrendBucketOut) (i : Nat) (r : TrendBucketOut),
      l[i]? = some r → r.totalProducts ≠ none →
      (fillTotals acc l)[i]? = some r := by
  intro acc l
  induction l generalizing acc with
  | nil => intro i r h; simp at h
  | cons x xs ih =>
    intro i r h hne
    match hx : x.totalProducts with
    | none =>
      rw [fillTotals, hx]
      match i with
      | 0 =>
        simp only [List.getElem?_cons_zero, Option.some.injEq] at h
        subst h
        exact absurd hx hne
      | i + 1 =>
        simp only [List.getElem?_cons_succ] at h ⊢
        exact ih _ _ _ h hne
    | some v =>
      rw [fillTotals, hx]
      match i with
      | 0 =>
        simp only [List.getElem?_cons_zero] at h ⊢
        exact h
      | i + 1 =>
        simp only [List.getElem?_cons_succ] at h ⊢
        exact ih _ _ _ h hne

theorem fillTotals_fill :
    ∀ (acc : Option Int) (l : List TrendBucketOut) (i : Nat) (r : TrendBucketOut),
      l[i]? = some r → r.totalProducts = none →
      (∃ j rj w, j < i ∧ l[j]? = some rj ∧ rj.totalProducts = some w ∧
        (∀ k rk, j < k → k < i → l[k]? = some rk → rk.totalProducts = none) ∧
        (fillTotals acc l)[i]? = some { r with totalProducts := some w }) ∨
      ((∀ j rj, j < i → l[j]? = some rj → rj.totalProducts = none) ∧
        (fillTotals acc l)[i]? = some { r with totalProducts := some (acc.getD 0) }) := by
  intro acc l
  induction l generalizing acc with
  | nil => intro i r h; simp at h
  | cons x xs ih =>
    intro i r h hnone
    match hx : x.totalProducts with
    | none =>
      rw [fillTotals, hx]
      match i with
      | 0 =>
        simp only [List.getElem?_cons_zero, Option.some.injEq] at h
        subst h
        right
        refine ⟨fun j rj hj _ => absurd hj (by omega), ?_⟩
        simp
      | i + 1 =>
        simp only [List.getElem?_cons_succ] at h
        rcases ih acc i r h hnone with ⟨j, rj, w, hj, hjg, hjw, hgap, hfill⟩ | ⟨hall, hfill⟩
        · left
          exact ⟨j + 1, rj, w, by omega, by simpa using hjg, hjw,
            fun k rk hk1 hk2 hkg => by
              match k with
              | 0 => omega
              | k + 1 =>
                exact hgap k rk (by omega) (by omega) (by simpa using hkg),
            by simpa using hfill⟩
        · right
          refine ⟨?_, by simpa using hfill⟩
          intro j rj hj hjg
          match j with
          | 0 =>
            simp only [List.getElem?_cons_zero, Option.some.injEq] at hjg
            subst hjg; exact hx
          | j + 1 =>
            exact hall j rj (by omega) (by simpa using hjg)
    | some v =>
      rw [fillTotals, hx]
      match i with
      | 0 =>
        simp only [List.getElem?_cons_zero, Option.some.injEq] at h
        subst h
        exact absurd hnone (by simp [hx])
      | i + 1 =>
        simp only [List.getElem?_cons_succ] at h
        rcases ih (some v) i r h hnone with ⟨j, rj, w, hj, hjg, hjw, hgap, hfill⟩ | ⟨hall, hfill⟩
        · left
          exact ⟨j + 1, rj, w, by omega, by simpa using hjg, hjw,
            fun k rk hk1 hk2 hkg => by
              match k with
              | 0 => omega
              | k + 1 =>
                exact hgap k rk (by omega) (by omega) (by simpa using hkg),
            by simpa using hfill⟩
        · left
          refine ⟨0, x, v, by omega, by simp, hx, ?_, ?_⟩
          · intro k rk hk1 hk2 hkg
            match k with
            | 0 => omega
            | k + 1 =>
              exact hall k rk (by omega) (by simpa using hkg)
          · simpa using hfill

end DashboardModel

namespace DashboardModel

/-! ## Supporting lemmas for the claims -/


theorem fillTotals_map_added :
    ∀ (acc : Option Int) (l : List TrendBucketOut),
      (fillTotals acc l).map (fun r => r.productsAdded) =
        l.map (fun r => r.productsAdded) := by
  intro acc l
  induction l generalizing acc with
  | nil => rfl
  | cons r rs ih =>
    match hr : r.totalProducts with
    | none => simp only [fillTotals, hr, List.map_cons, ih]
    | some v => simp only [fillTotals, hr, List.map_cons, ih]

theorem fillTotals_map_removed :
    ∀ (acc : Option Int) (l : List TrendBucketOut),
      (fillTotals acc l).map (fun r => r.productsRemoved) =
        l.map (fun r => r.productsRemoved) := by
  intro acc l
  induction l generalizing acc with
  | nil => rfl
  | cons r rs ih =>
    match hr : r.totalProducts with
    | none => simp only [fillTotals, hr, List.map_cons, ih]
    | some v => simp only [fillTotals, hr, List.map_cons, ih]

/-- Length of a day-granularity enumeration over a whole number of days. -/
theorem enumBuckets_day_length :
    ∀ (k : Nat) (M : Int),
      (enumBuckets (fun d => ⟨startOfDayUTC d, endOfDayUTC d⟩)
        (fun d => addDaysUTC d 1) (M * 86400000)
        ((M + k) * 86400000 + 86399999)).length = k + 1 := by
  intro k
  induction k with
  | zero =>
    intro M
    push_cast
    rw [show M + (0 : Int) = M by ring]
    rw [@enumBuckets_eq_cons (fun d => ⟨startOfDayUTC d, endOfDayUTC d⟩)
      (fun d => addDaysUTC d 1) (M * 86400000) (M * 86400000 + 86399999)
      (by omega) (day_hadv _)]
    rw [show addDaysUTC (M * 86400000) 1 = (M + 1) * 86400000 by
      rw [addDaysUTC_eq]; ring]
    rw [@enumBuckets_eq_nil (fun d => ⟨startOfDayUTC d, endOfDayUTC d⟩)
      (fun d => addDaysUTC d 1) ((M + 1) * 86400000) (M * 86400000 + 86399999)
      (by omega)]
    rfl
  | succ k ih =>
    intro M
    push_cast
    rw [@enumBuckets_eq_cons (fun d => ⟨startOfDayUTC d, endOfDayUTC d⟩)
      (fun d => addDaysUTC d 1) (M * 86400000)
      ((M + ((k : Int) + 1)) * 86400000 + 86399999) (by omega) (day_hadv _)]
    rw [show addDaysUTC (M * 86400000) 1 = (M + 1) * 86400000 by
      rw [addDaysUTC_eq]; ring]
    rw [show (M + ((k : Int) + 1)) * 86400000 + 86399999 =
      ((M + 1) + (k : Int)) * 86400000 + 86399999 by ring]
    rw [List.length_cons, ih (M + 1)]

/-- Shared partition property of the bucket lists `buildBuckets` returns on
parsed dates: non-empty when the snapped range is non-trivial, adjacent, and
covering each instant of the snapped range exactly once. -/
theorem buildBuckets_partition (g ss es : String) (s e now rs re : Int)
    (hg : g = "day" ∨ g = "week" ∨ g = "month")
    (hs : toUTCDateOnly ss = some (some s))
    (he : toUTCDateOnly es = some (some e))
    (hrs : (buildBuckets (some ss) (some es) g now).rangeStart = some rs)
    (hre : (buildBuckets (some ss) (some es) g now).rangeEnd = some re)
    (hle : rs ≤ re) :
    (buildBuckets (some ss) (some es) g now).buckets ≠ [] ∧
    List.Chain' (fun b1 b2 => b1.stop + 1 = b2.start)
      (buildBuckets (some ss) (some es) g now).buckets ∧
    ∀ t : Int,
      (buildBuckets (some ss) (some es) g now).buckets.countP
          (fun b => decide (b.start ≤ t ∧ t ≤ b.stop)) =
        if rs ≤ t ∧ t ≤ re then 1 else 0 := by
  rcases hg with rfl | rfl | rfl
  case inl =>
    have hB : (buildBuckets (some ss) (some es) "day" now).buckets =
        enumBuckets (fun d => ⟨startOfDayUTC d, endOfDayUTC d⟩)
          (fun d => addDaysUTC d 1) (startOfDayUTC s) (endOfDayUTC e) := by
      rw [buildBuckets_day_parsed ss es s e now hs he]
    rw [buildBuckets_day_parsed ss es s e now hs he] at hrs hre
    obtain rfl : startOfDayUTC s = rs := by simpa using hrs
    obtain rfl : endOfDayUTC e = re := by simpa using hre
    rw [hB]
    refine ⟨?_, ?_, ?_⟩
    case refine_1 =>
      rw [@enumBuckets_eq_cons (fun d => ⟨startOfDayUTC d, endOfDayUTC d⟩)
        (fun d => addDaysUTC d 1) (startOfDayUTC s) (endOfDayUTC e) hle (day_hadv _)]
      exact List.cons_ne_nil _ _
    case refine_2 =>
      exact @enumBuckets_chain _ _ (fun c => c % 86400000 = 0) _
        (fun c _ => day_hadv c) day_hP day_hmk _ (startOfDayUTC_aligned s)
    case refine_3 =>
      exact @enumBuckets_countP _ _ (fun c => c % 86400000 = 0) _
        (fun c _ => day_hadv c) day_hP day_hmk (fun c hc h1 h2 => day_hrE e c hc h1 h2)
        _ (startOfDayUTC_aligned s)
  case inr.inl =>
    have hB : (buildBuckets (some ss) (some es) "week" now).buckets =
        enumBuckets (fun d => ⟨startOfISOWeekUTC d, endOfISOWeekUTC d⟩)
          (fun d => addDaysUTC d 7) (startOfISOWeekUTC s) (endOfISOWeekUTC e) := by
      rw [buildBuckets_week_parsed ss es s e now hs he]
    rw [buildBuckets_week_parsed ss es s e now hs he] at hrs hre
    obtain rfl : startOfISOWeekUTC s = rs := by simpa using hrs
    obtain rfl : endOfISOWeekUTC e = re := by simpa using hre
    rw [hB]
    refine ⟨?_, ?_, ?_⟩
    case refine_1 =>
      rw [@enumBuckets_eq_cons (fun d => ⟨startOfISOWeekUTC d, endOfISOWeekUTC d⟩)
        (fun d => addDaysUTC d 7) (startOfISOWeekUTC s) (endOfISOWeekUTC e) hle
        (week_hadv _)]
      exact List.cons_ne_nil _ _
    case refine_2 =>
      exact @enumBuckets_chain _ _ (fun c => c % 604800000 = 345600000) _
        (fun c _ => week_hadv c) week_hP week_hmk _ (startOfISOWeekUTC_aligned s)
    case refine_3 =>
      exact @enumBuckets_countP _ _ (fun c => c % 604800000 = 345600000) _
        (fun c _ => week_hadv c) week_hP week_hmk
        (fun c hc h1 h2 => week_hrE e c hc h1 h2) _ (startOfISOWeekUTC_aligned s)
  case inr.inr =>
    have hB : (buildBuckets (some ss) (some es) "month" now).buckets =
        enumBuckets (fun d => ⟨startOfMonthUTC d, endOfMonthUTC d⟩)
          (fun d => addMonthsUTC d 1) (startOfMonthUTC s) (endOfMonthUTC e) := by
      rw [buildBuckets_month_parsed ss es s e now hs he]
    rw [buildBuckets_month_parsed ss es s e now hs he] at hrs hre
    obtain rfl : startOfMonthUTC s = rs := by simpa using hrs
    obtain rfl : endOfMonthUTC e = re := by simpa using hre
    rw [hB]
    refine ⟨?_, ?_, ?_⟩
    case refine_1 =>
      rw [@enumBuckets_eq_cons (fun d => ⟨startOfMonthUTC d, endOfMonthUTC d⟩)
        (fun d => addMonthsUTC d 1) (startOfMonthUTC s) (endOfMonthUTC e) hle
        (month_hadv _)]
      exact List.cons_ne_nil _ _
    case refine_2 =>
      exact @enumBuckets_chain _ _
        (fun c => c % 86400000 = 0 ∧ dayOf (c / 86400000) = 1) _
        (fun c _ => month_hadv c) month_hP month_hmk _ (startOfMonthUTC_aligned s)
    case refine_3 =>
      exact @enumBuckets_countP _ _
        (fun c => c % 86400000 = 0 ∧ dayOf (c / 86400000) = 1) _
        (fun c _ => month_hadv c) month_hP month_hmk
        (fun c hc h1 h2 => month_hrE e c hc h1 h2) _ (startOfMonthUTC_aligned s)

/-- When the supplied `endDate` parses to an Invalid Date, the `NaN`s
propagate and `buildBuckets` reports a `null`-like `rangeStart`. -/
theorem buildBuckets_end_invalid (es g : String) (now : Int)
    (hx : toUTCDateOnly es = some none) :
    (buildBuckets none (some es) g now).rangeStart = none := by
  simp only [buildBuckets, hx, Option.map]
  split_ifs <;> rfl

/-- Whatever the inputs, if the reported snapped range is inverted the
enumeration loop never runs. -/
theorem buildBuckets_empty_of_inverted (sd ed : Option String) (g : String)
    (now rs re : Int)
    (hrs : (buildBuckets sd ed g now).rangeStart = some rs)
    (hre : (buildBuckets sd ed g now).rangeEnd = some re)
    (hlt : re < rs) :
    (buildBuckets sd ed g now).buckets = [] := by
  simp only [buildBuckets] at hrs hre ⊢
  split_ifs at hrs hre ⊢ <;>
    (dsimp only at hrs hre ⊢; rw [hrs, hre]; exact enumBuckets_eq_nil _ _ hlt)

end DashboardModel

namespace DashboardModel

/-! ## Helper lemmas for the defaulted-start range invariant -/

theorem range_ok_day (ed : Option String) (now rs re : Int)
    (hrs : (buildBuckets none ed "day" now).rangeStart = some rs)
    (hre : (buildBuckets none ed "day" now).rangeEnd = some re) :
    rs ≤ re := by
  rcases hE : (match ed with
      | none => some (startOfDayUTC now)
      | some es =>
        match toUTCDateOnly es with
        | none => some (startOfDayUTC now)
        | some v => v) with _ | e0
  case none =>
    rcases ed with _ | es
    case none => simp at hE
    case some =>
      dsimp only at hE
      rcases hx : toUTCDateOnly es with _ | v
      case none => rw [hx] at hE; simp at hE
      case some =>
        rcases v with _ | e
        case none =>
          rw [buildBuckets_end_invalid es "day" now hx] at hrs
          exact absurd hrs (by simp)
        case some => rw [hx] at hE; simp at hE
  case some =>
    rw [buildBuckets_start_none_day ed now e0 hE] at hrs hre
    obtain rfl : startOfDayUTC (startOfDayUTC
        (setUTCDate e0 (getUTCDate e0 - 6))) = rs := by simpa using hrs
    obtain rfl : endOfDayUTC e0 = re := by simpa using hre
    exact day_default_start_le e0

theorem range_ok_week (ed : Option String) (now rs re : Int)
    (hrs : (buildBuckets none ed "week" now).rangeStart = some rs)
    (hre : (buildBuckets none ed "week" now).rangeEnd = some re) :
    rs ≤ re := by
  rcases hE : (match ed with
      | none => some (startOfDayUTC now)
      | some es =>
        match toUTCDateOnly es with
        | none => some (startOfDayUTC now)
        | some v => v) with _ | e0
  case none =>
    rcases ed with _ | es
    case none => simp at hE
    case some =>
      dsimp only at hE
      rcases hx : toUTCDateOnly es with _ | v
      case none => rw [hx] at hE; simp at hE
      case some =>
        rcases v with _ | e
        case none =>
          rw [buildBuckets_end_invalid es "week" now hx] at hrs
          exact absurd hrs (by simp)
        case some => rw [hx] at hE; simp at hE
  case some =>
    rw [buildBuckets_start_none_week ed now e0 hE] at hrs hre
    obtain rfl : startOfISOWeekUTC (startOfISOWeekUTC
        (setUTCDate e0 (getUTCDate e0 - 7 * 11))) = rs := by simpa using hrs
    obtain rfl : endOfISOWeekUTC e0 = re := by simpa using hre
    exact week_default_start_le e0

theorem range_ok_month (ed : Option String) (now rs re : Int)
    (hrs : (buildBuckets none ed "month" now).rangeStart = some rs)
    (hre : (buildBuckets none ed "month" now).rangeEnd = some re) :
    rs ≤ re := by
  rcases hE : (match ed with
      | none => some (startOfDayUTC now)
      | some es =>
        match toUTCDateOnly es with
        | none => some (startOfDayUTC now)
        | some v => v) with _ | e0
  case none =>
    rcases ed with _ | es
    case none => simp at hE
    case some =>
      dsimp only at hE
      rcases hx : toUTCDateOnly es with _ | v
      case none => rw [hx] at hE; simp at hE
      case some =>
        rcases v with _ | e
        case none =>
          rw [buildBuckets_end_invalid es "month" now hx] at hrs
          exact absurd hrs (by simp)
        case some => rw [hx] at hE; simp at hE
  case some =>
    rw [buildBuckets_start_none_month ed now e0 hE] at hrs hre
    obtain rfl : startOfMonthUTC (startOfMonthUTC
        (setUTCMonth e0 (getUTCMonth e0 - 5))) = rs := by simpa using hrs
    obtain rfl : endOfMonthUTC e0 = re := by simpa using hre
    exact month_default_start_le e0

/-! ## The claims -/

/-- C1: for each granularity (day, week, month) and supplied dates that
parse, whenever the snapped `rangeStart` is at most the snapped `rangeEnd`,
the bucket list of `buildBuckets` is non-empty, consecutive buckets satisfy
`bucket.end + 1ms = next.start`, and every instant of the closed snapped
range lies in exactly one bucket while instants outside it lie in none (so
the union of the buckets is exactly the snapped range). -/
theorem C1_buckets_cover_range (g ss es : String) (s e now rs re : Int)
    (hg : g = "day" ∨ g = "week" ∨ g = "month")
    (hs : toUTCDateOnly ss = some (some s))
    (he : toUTCDateOnly es = some (some e))
    (hrs : (buildBuckets (some ss) (some es) g now).rangeStart = some rs)
    (hre : (buildBuckets (some ss) (some es) g now).rangeEnd = some re)
    (hle : rs ≤ re) :
    (buildBuckets (some ss) (some es) g now).buckets ≠ [] ∧
    List.Chain' (fun b1 b2 => b1.stop + 1 = b2.start)
      (buildBuckets (some ss) (some es) g now).buckets ∧
    ∀ t : Int,
      (buildBuckets (some ss) (some es) g now).buckets.countP
          (fun b => decide (b.start ≤ t ∧ t ≤ b.stop)) =
        if rs ≤ t ∧ t ≤ re then 1 else 0 :=
  buildBuckets_partition g ss es s e now rs re hg hs he hrs hre hle

/-- Witness for C1 at `startDate=2025-09-01`, `endDate=2025-09-03`, day
granularity. -/
theorem C1_witness :
    (("day" : String) = "day" ∨ ("day" : String) = "week" ∨
      ("day" : String) = "month") ∧
    toUTCDateOnly "2025-09-01" = some (some 1756684800000) ∧
    toUTCDateOnly "2025-09-03" = some (some 1756857600000) ∧
    (buildBuckets (some "2025-09-01") (some "2025-09-03") "day" 0).rangeStart =
      some 1756684800000 ∧
    (buildBuckets (some "2025-09-01") (some "2025-09-03") "day" 0).rangeEnd =
      some 1756943999999 ∧
    ((1756684800000 : Int) ≤ 1756943999999) ∧
    ((buildBuckets (some "2025-09-01") (some "2025-09-03") "day" 0).buckets ≠ [] ∧
      List.Chain' (fun b1 b2 => b1.stop + 1 = b2.start)
        (buildBuckets (some "2025-09-01") (some "2025-09-03") "day" 0).buckets ∧
      ∀ t : Int,
        (buildBuckets (some "2025-09-01") (some "2025-09-03") "day" 0).buckets.countP
            (fun b => decide (b.start ≤ t ∧ t ≤ b.stop)) =
          if 1756684800000 ≤ t ∧ t ≤ 1756943999999 then 1 else 0) :=
  ⟨by decide, by decide, by decide, by decide, by decide, by decide,
    C1_buckets_cover_range "day" "2025-09-01" "2025-09-03" 1756684800000
      1756857600000 0 1756684800000 1756943999999 (by decide) (by decide)
      (by decide) (by decide) (by decide) (by decide)⟩

/-- C2: the products aggregation forward-fills its cumulative total.
`out` is the handler's trend array and `raw` the per-bucket records before
the fill loop (the handler's `map`). The raw total of a bucket is the
`totalProducts` of the last record falling in it, or `null` when none does;
after the loop a present total is kept unchanged, a missing total becomes
the nearest preceding present total (with nothing but missing totals in
between), or 0 when no preceding bucket had a record; the output never
contains a `null` total and is in 1-1 correspondence with the buckets. -/
theorem C2_forward_fill (startDate endDate bucket : Option String) (now : Int)
    (trends : List ProductTrendRow) (productCount : Int) :
    let out := (getDashboardProductsHandler startDate endDate bucket now trends
      productCount).trend
    let bl := (buildBuckets startDate endDate (bucket.getD "day") now).buckets
    let raw := bl.map (fun b =>
      ({ startDate := fmt b.start
         endDate := fmt b.stop
         totalProducts := (trends.filter (fun t =>
             decide (b.start ≤ t.date) && decide (t.date ≤ b.stop))).getLast?.map
           (fun l => l.totalProducts)
         productsAdded := (trends.filter (fun t =>
             decide (b.start ≤ t.date) && decide (t.date ≤ b.stop))).foldl
           (fun sum it => sum + it.productsAdded) 0
         productsRemoved := (trends.filter (fun t =>
             decide (b.start ≤ t.date) && decide (t.date ≤ b.stop))).foldl
           (fun sum it => sum + it.productsRemoved) 0 } : TrendBucketOut))
    out = fillTotals none raw ∧
    out.length = bl.length ∧
    (∀ r ∈ out, r.totalProducts ≠ none) ∧
    (∀ i : Nat, ∀ r : TrendBucketOut, raw[i]? = some r →
      r.totalProducts ≠ none → out[i]? = some r) ∧
    (∀ i : Nat, ∀ r : TrendBucketOut, raw[i]? = some r →
      r.totalProducts = none →
      (∃ j rj w, j < i ∧ raw[j]? = some rj ∧ rj.totalProducts = some w ∧
        (∀ k rk, j < k → k < i → raw[k]? = some rk → rk.totalProducts = none) ∧
        out[i]? = some { r with totalProducts := some w }) ∨
      ((∀ j rj, j < i → raw[j]? = some rj → rj.totalProducts = none) ∧
        out[i]? = some { r with totalProducts := some 0 })) := by
  intro out bl raw
  refine ⟨rfl, ?_, ?_, ?_, ?_⟩
  case refine_1 =>
    show (fillTotals none raw).length = bl.length
    rw [fillTotals_length]
    exact List.length_map _ _
  case refine_2 =>
    intro r hr
    exact fillTotals_never_none none raw r hr
  case refine_3 =>
    intro i r h1 h2
    exact fillTotals_some_kept none raw i r h1 h2
  case refine_4 =>
    intro i r h1 h2
    rcases fillTotals_fill none raw i r h1 h2 with
      ⟨j, rj, w, hj, hjg, hjw, hgap, hfill⟩ | ⟨hall, hfill⟩
    case inl => exact Or.inl ⟨j, rj, w, hj, hjg, hjw, hgap, hfill⟩
    case inr => exact Or.inr ⟨hall, hfill⟩

/-- C3 is a code bug, witnessed here: with both dates omitted, month
granularity and `now = 2025-07-31T12:00:00Z` (epoch ms 1753963200000), the
default start is computed by `setUTCMonth` on the day-31 date, so `Feb 31`
overflows to `Mar 3`; the snapped range starts at 2025-03-01 (epoch ms
1740787200000) instead of 2025-02-01 and the enumeration yields only 5
month buckets (Mar..Jul), not the documented 6. -/
theorem C3_month_default_overflow :
    (buildBuckets none none "month" 1753963200000).rangeStart =
      some 1740787200000 ∧
    (buildBuckets none none "month" 1753963200000).buckets.length = 5 := by
  rw [buildBuckets_start_none_month none 1753963200000 1753920000000 (by decide)]
  constructor
  case left => decide
  case right =>
    show (enumBuckets (fun d => ⟨startOfMonthUTC d, endOfMonthUTC d⟩)
      (fun d => addMonthsUTC d 1)
      (startOfMonthUTC (startOfMonthUTC
        (setUTCMonth 1753920000000 (getUTCMonth 1753920000000 - 5))))
      (endOfMonthUTC 1753920000000)).length = 5
    rw [show startOfMonthUTC (startOfMonthUTC
        (setUTCMonth 1753920000000 (getUTCMonth 1753920000000 - 5))) =
      (1740787200000 : Int) by decide]
    rw [show endOfMonthUTC (1753920000000 : Int) = (1754006399999 : Int) by decide]
    rw [@enumBuckets_eq_cons (fun d => ⟨startOfMonthUTC d, endOfMonthUTC d⟩)
      (fun d => addMonthsUTC d 1) 1740787200000 1754006399999 (by decide) (by decide)]
    rw [show addMonthsUTC (1740787200000 : Int) 1 = (1743465600000 : Int) by decide]
    rw [@enumBuckets_eq_cons (fun d => ⟨startOfMonthUTC d, endOfMonthUTC d⟩)
      (fun d => addMonthsUTC d 1) 1743465600000 1754006399999 (by decide) (by decide)]
    rw [show addMonthsUTC (1743465600000 : Int) 1 = (1746057600000 : Int) by decide]
    rw [@enumBuckets_eq_cons (fun d => ⟨startOfMonthUTC d, endOfMonthUTC d⟩)
      (fun d => addMonthsUTC d 1) 1746057600000 1754006399999 (by decide) (by decide)]
    rw [show addMonthsUTC (1746057600000 : Int) 1 = (1748736000000 : Int) by decide]
    rw [@enumBuckets_eq_cons (fun d => ⟨startOfMonthUTC d, endOfMonthUTC d⟩)
      (fun d => addMonthsUTC d 1) 1748736000000 1754006399999 (by decide) (by decide)]
    rw [show addMonthsUTC (1748736000000 : Int) 1 = (1751328000000 : Int) by decide]
    rw [@enumBuckets_eq_cons (fun d => ⟨startOfMonthUTC d, endOfMonthUTC d⟩)
      (fun d => addMonthsUTC d 1) 1751328000000 1754006399999 (by decide) (by decide)]
    rw [show addMonthsUTC (1751328000000 : Int) 1 = (1754006400000 : Int) by decide]
    rw [@enumBuckets_eq_nil (fun d => ⟨startOfMonthUTC d, endOfMonthUTC d⟩)
      (fun d => addMonthsUTC d 1) 1754006400000 1754006399999 (by decide)]
    rfl

/-- C4 counterexample: `2025-13-01` is not a literal `YYYY-MM-DD` calendar
date (there is no month 13), yet `toUTCDateOnly` does not return `null`;
`Date.UTC` overflow arithmetic turns it into 2026-01-01
(epoch ms 1767225600000). -/
theorem C4_counterexample :
    toUTCDateOnly "2025-13-01" = some (some 1767225600000) ∧
      toUTCDateOnly "2025-13-01" ≠ none := by
  constructor
  case left => decide
  case right => decide

/-- C4 (amended): `toUTCDateOnly` returns `null` exactly when the input is
the empty string or one of its first three dash-separated components
converts to a falsy number (`NaN` or 0); any other input is accepted, with
out-of-range fields normalized by `Date.UTC` overflow arithmetic (month 13
becomes January of the next year) rather than rejected; an in-range literal
date parses to its own midnight, and a `null` parse is treated as missing
by `buildBuckets`. -/
theorem C4_amended_parsing :
    (∀ ss : String, ss ≠ "" →
      (toUTCDateOnly ss = none ↔
        (jsFalsy (((splitDash ss.toList).map (fun cs =>
            jsNumber (String.mk cs))).getD 0 JSNumber.nan) ||
         jsFalsy (((splitDash ss.toList).map (fun cs =>
            jsNumber (String.mk cs))).getD 1 JSNumber.nan) ||
         jsFalsy (((splitDash ss.toList).map (fun cs =>
            jsNumber (String.mk cs))).getD 2 JSNumber.nan)) = true)) ∧
    toUTCDateOnly "" = none ∧
    (∀ (ss : String) (ed : Option String) (g : String) (now : Int),
      toUTCDateOnly ss = none →
      buildBuckets (some ss) ed g now = buildBuckets none ed g now) ∧
    toUTCDateOnly "2025-09-01" = some (some 1756684800000) ∧
    toUTCDateOnly "2025-13-01" = some (some (DateUTC 2026 0 1 0 0 0 0)) := by
  refine ⟨?_, by decide, ?_, by decide, by decide⟩
  case refine_1 =>
    intro ss hne
    simp only [toUTCDateOnly, if_neg hne]
    split_ifs with hf
    case pos => simp only [hf, iff_true]
    case neg =>
      constructor
      case mp =>
        intro h
        exact absurd h (by split <;> simp)
      case mpr =>
        intro h
        exact absurd h hf
  case refine_2 =>
    intro ss ed g now h
    exact buildBuckets_null_start ss ed g now h

/-- C5 counterexample: with `startDate=2025-09-10` and `endDate=2025-09-01`
(day granularity) the returned pair has `rangeEnd < rangeStart`, refuting
the claim that rangeStart <= rangeEnd for every input combination. -/
theorem C5_counterexample :
    (buildBuckets (some "2025-09-10") (some "2025-09-01") "day" 0).rangeStart =
      some 1757462400000 ∧
    (buildBuckets (some "2025-09-10") (some "2025-09-01") "day" 0).rangeEnd =
      some 1756771199999 ∧
    ((1756771199999 : Int) < 1757462400000) := by
  refine ⟨by decide, by decide, by decide⟩

/-- C5 (amended): the returned range satisfies `rangeStart <= rangeEnd`
whenever the start date is defaulted — i.e. `startDate` is absent (including
a malformed or null parse, which C4 shows is treated as absent) — for every
granularity and every end parameter; when the caller supplies both dates it
can fail (see the counterexample). -/
theorem C5_amended_default_range (g : String) (ed : Option String)
    (now rs re : Int)
    (hg : g = "day" ∨ g = "week" ∨ g = "month")
    (hrs : (buildBuckets none ed g now).rangeStart = some rs)
    (hre : (buildBuckets none ed g now).rangeEnd = some re) :
    rs ≤ re := by
  rcases hg with rfl | rfl | rfl
  case inl => exact range_ok_day ed now rs re hrs hre
  case inr.inl => exact range_ok_week ed now rs re hrs hre
  case inr.inr => exact range_ok_month ed now rs re hrs hre

set_option maxRecDepth 4000 in
/-- Witness for the amended C5: both dates omitted, day granularity,
`now = 0`. -/
theorem C5_witness :
    (("day" : String) = "day" ∨ ("day" : String) = "week" ∨
      ("day" : String) = "month") ∧
    (buildBuckets none none "day" 0).rangeStart = some (-518400000) ∧
    (buildBuckets none none "day" 0).rangeEnd = some 86399999 ∧
    ((-518400000 : Int) ≤ 86399999) :=
  ⟨by decide, by decide, by decide,
    C5_amended_default_range "day" none 0 (-518400000) 86399999 (by decide)
      (by decide) (by decide)⟩

/-- C6: when every trend record and every visitor log falls inside the
snapped range, the per-bucket sums of `productsAdded`/`productsRemoved` in
the products response add up to the corresponding sums over all records,
the per-bucket visitor counts add up to the number of logs, and
`totalVisitors` equals that same number (the two coincide). -/
theorem C6_sum_preservation (g ss es : String) (s e now rs re productCount : Int)
    (trends : List ProductTrendRow) (logs : List VisitorLogRow)
    (hg : g = "day" ∨ g = "week" ∨ g = "month")
    (hs : toUTCDateOnly ss = some (some s))
    (he : toUTCDateOnly es = some (some e))
    (hrs : (buildBuckets (some ss) (some es) g now).rangeStart = some rs)
    (hre : (buildBuckets (some ss) (some es) g now).rangeEnd = some re)
    (hle : rs ≤ re)
    (htr : ∀ r ∈ trends, rs ≤ r.date ∧ r.date ≤ re)
    (hlg : ∀ l ∈ logs, rs ≤ l.visitedAt ∧ l.visitedAt ≤ re) :
    ((getDashboardProductsHandler (some ss) (some es) (some g) now trends
        productCount).trend.map (fun r => r.productsAdded)).sum =
      (trends.map (fun r => r.productsAdded)).sum ∧
    ((getDashboardProductsHandler (some ss) (some es) (some g) now trends
        productCount).trend.map (fun r => r.productsRemoved)).sum =
      (trends.map (fun r => r.productsRemoved)).sum ∧
    ((getDashboardVisitorsHandler (some ss) (some es) (some g) now
        logs).visitorsByBucket.map (fun v => v.visitors)).sum =
      (logs.length : Int) ∧
    (getDashboardVisitorsHandler (some ss) (some es) (some g) now
      logs).totalVisitors = (logs.length : Int) := by
  have hpart := (buildBuckets_partition g ss es s e now rs re hg hs he hrs hre hle).2.2
  have hcount_t : ∀ r ∈ trends,
      (buildBuckets (some ss) (some es) g now).buckets.countP
        (fun b => decide (b.start ≤ r.date ∧ r.date ≤ b.stop)) = 1 := by
    intro r hr
    rw [hpart r.date, if_pos ⟨(htr r hr).1, (htr r hr).2⟩]
  have hcount_l : ∀ l ∈ logs,
      (buildBuckets (some ss) (some es) g now).buckets.countP
        (fun b => decide (b.start ≤ l.visitedAt ∧ l.visitedAt ≤ b.stop)) = 1 := by
    intro l hl
    rw [hpart l.visitedAt, if_pos ⟨(hlg l hl).1, (hlg l hl).2⟩]
  have ht : (getDashboardProductsHandler (some ss) (some es) (some g) now trends
      productCount).trend =
      fillTotals none ((buildBuckets (some ss) (some es) g now).buckets.map (fun b =>
        ({ startDate := fmt b.start
           endDate := fmt b.stop
           totalProducts := (trends.filter (fun t =>
               decide (b.start ≤ t.date) && decide (t.date ≤ b.stop))).getLast?.map
             (fun l => l.totalProducts)
           productsAdded := (trends.filter (fun t =>
               decide (b.start ≤ t.date) && decide (t.date ≤ b.stop))).foldl
             (fun sum it => sum + it.productsAdded) 0
           productsRemoved := (trends.filter (fun t =>
               decide (b.start ≤ t.date) && decide (t.date ≤ b.stop))).foldl
             (fun sum it => sum + it.productsRemoved) 0 } : TrendBucketOut))) := rfl
  have hv : (getDashboardVisitorsHandler (some ss) (some es) (some g) now
      logs).visitorsByBucket =
      (buildBuckets (some ss) (some es) g now).buckets.map (fun b =>
        ({ startDate := fmt b.start
           endDate := fmt b.stop
           visitors := logs.foldl (fun acc l =>
             acc + (if b.start ≤ l.visitedAt ∧ l.visitedAt ≤ b.stop then 1 else 0))
             0 } : VisitorBucketOut)) := rfl
  refine ⟨?_, ?_, ?_, rfl⟩
  case refine_1 =>
    rw [ht, fillTotals_map_added, List.map_map]
    have hcomp : ∀ b : Bucket,
        ((trends.filter (fun t =>
            decide (b.start ≤ t.date) && decide (t.date ≤ b.stop))).foldl
          (fun sum it => sum + it.productsAdded) 0) =
        ((trends.filter (fun t =>
            decide (b.start ≤ t.date) && decide (t.date ≤ b.stop))).map
          (fun t => t.productsAdded)).sum := by
      intro b
      rw [foldl_add_eq (fun t : ProductTrendRow => t.productsAdded), zero_add]
    refine Eq.trans ?_ (sum_filter_swap (fun t : ProductTrendRow => t.date)
      (fun t => t.productsAdded) _ trends hcount_t)
    exact congrArg List.sum (List.map_congr_left (fun b _ => hcomp b))
  case refine_2 =>
    rw [ht, fillTotals_map_removed, List.map_map]
    have hcomp : ∀ b : Bucket,
        ((trends.filter (fun t =>
            decide (b.start ≤ t.date) && decide (t.date ≤ b.stop))).foldl
          (fun sum it => sum + it.productsRemoved) 0) =
        ((trends.filter (fun t =>
            decide (b.start ≤ t.date) && decide (t.date ≤ b.stop))).map
          (fun t => t.productsRemoved)).sum := by
      intro b
      rw [foldl_add_eq (fun t : ProductTrendRow => t.productsRemoved), zero_add]
    refine Eq.trans ?_ (sum_filter_swap (fun t : ProductTrendRow => t.date)
      (fun t => t.productsRemoved) _ trends hcount_t)
    exact congrArg List.sum (List.map_congr_left (fun b _ => hcomp b))
  case refine_3 =>
    rw [hv, List.map_map]
    exact sum_count_swap _ logs hcount_l

/-- Witness for C6 with one in-range trend record and one in-range visitor
log over `2025-09-01..2025-09-03`, day granularity. -/
theorem C6_witness :
    (("day" : String) = "day" ∨ ("day" : String) = "week" ∨
      ("day" : String) = "month") ∧
    toUTCDateOnly "2025-09-01" = some (some 1756684800000) ∧
    toUTCDateOnly "2025-09-03" = some (some 1756857600000) ∧
    (buildBuckets (some "2025-09-01") (some "2025-09-03") "day" 0).rangeStart =
      some 1756684800000 ∧
    (buildBuckets (some "2025-09-01") (some "2025-09-03") "day" 0).rangeEnd =
      some 1756943999999 ∧
    ((1756684800000 : Int) ≤ 1756943999999) ∧
    (∀ r ∈ [(⟨1756700000000, 5, 2, 1⟩ : ProductTrendRow)],
      1756684800000 ≤ r.date ∧ r.date ≤ 1756943999999) ∧
    (∀ l ∈ [(⟨1756700000000⟩ : VisitorLogRow)],
      1756684800000 ≤ l.visitedAt ∧ l.visitedAt ≤ 1756943999999) ∧
    (((getDashboardProductsHandler (some "2025-09-01") (some "2025-09-03")
        (some "day") 0
        [(⟨1756700000000, 5, 2, 1⟩ : ProductTrendRow)] 7).trend.map
        (fun r => r.productsAdded)).sum =
      ([(⟨1756700000000, 5, 2, 1⟩ : ProductTrendRow)].map
        (fun r => r.productsAdded)).sum ∧
     ((getDashboardProductsHandler (some "2025-09-01") (some "2025-09-03")
        (some "day") 0
        [(⟨1756700000000, 5, 2, 1⟩ : ProductTrendRow)] 7).trend.map
        (fun r => r.productsRemoved)).sum =
      ([(⟨1756700000000, 5, 2, 1⟩ : ProductTrendRow)].map
        (fun r => r.productsRemoved)).sum ∧
     ((getDashboardVisitorsHandler (some "2025-09-01") (some "2025-09-03")
        (some "day") 0
        [(⟨1756700000000⟩ : VisitorLogRow)]).visitorsByBucket.map
        (fun v => v.visitors)).sum =
      (([(⟨1756700000000⟩ : VisitorLogRow)].length : Int)) ∧
     (getDashboardVisitorsHandler (some "2025-09-01") (some "2025-09-03")
        (some "day") 0
        [(⟨1756700000000⟩ : VisitorLogRow)]).totalVisitors =
      (([(⟨1756700000000⟩ : VisitorLogRow)].length : Int))) :=
  ⟨by decide, by decide, by decide, by decide, by decide, by decide, by decide,
    by decide,
    C6_sum_preservation "day" "2025-09-01" "2025-09-03" 1756684800000
      1756857600000 0 1756684800000 1756943999999 7
      [(⟨1756700000000, 5, 2, 1⟩ : ProductTrendRow)]
      [(⟨1756700000000⟩ : VisitorLogRow)]
      (by decide) (by decide) (by decide) (by decide) (by decide) (by decide)
      (by decide) (by decide)⟩

/-- C7: each of the six snapping functions is idempotent. -/
theorem C7_snap_idempotent (t : Int) :
    startOfDayUTC (startOfDayUTC t) = startOfDayUTC t ∧
    endOfDayUTC (endOfDayUTC t) = endOfDayUTC t ∧
    startOfISOWeekUTC (startOfISOWeekUTC t) = startOfISOWeekUTC t ∧
    endOfISOWeekUTC (endOfISOWeekUTC t) = endOfISOWeekUTC t ∧
    startOfMonthUTC (startOfMonthUTC t) = startOfMonthUTC t ∧
    endOfMonthUTC (endOfMonthUTC t) = endOfMonthUTC t :=
  ⟨startOfDayUTC_idem t, endOfDayUTC_idem t, startOfISOWeekUTC_idem t,
    endOfISOWeekUTC_idem t, startOfMonthUTC_idem t, endOfMonthUTC_idem t⟩

/-- C8: with both dates omitted and the granularity left to its default
(`day`), `buildBuckets` returns exactly 7 buckets for every `now`; each is
a single UTC day and the last covers the current UTC calendar day. -/
theorem C8_default_seven_days (now : Int) :
    (buildBuckets none none ((none : Option String).getD "day") now).buckets.length = 7 ∧
    (∀ b ∈ (buildBuckets none none ((none : Option String).getD "day") now).buckets,
      b.stop = b.start + 86399999) ∧
    (buildBuckets none none ((none : Option String).getD "day") now).buckets.getLast? =
      some ⟨startOfDayUTC now, endOfDayUTC now⟩ := by
  rw [show (none : Option String).getD "day" = "day" from rfl,
    buildBuckets_none_day now]
  refine ⟨?_, ?_, ?_⟩
  case refine_1 =>
    show (enumBuckets (fun d => ⟨startOfDayUTC d, endOfDayUTC d⟩)
      (fun d => addDaysUTC d 1) ((now / 86400000 - 6) * 86400000)
      (now / 86400000 * 86400000 + 86399999)).length = 7
    have h := enumBuckets_day_length 6 (now / 86400000 - 6)
    rw [show ((now / 86400000 - 6) + ((6 : Nat) : Int)) * 86400000 + 86399999 =
      now / 86400000 * 86400000 + 86399999 by push_cast; ring] at h
    exact h
  case refine_2 =>
    intro b hb
    obtain ⟨c, hc, hbe, _, _⟩ := @enumBuckets_mem
      (fun d => ⟨startOfDayUTC d, endOfDayUTC d⟩) (fun d => addDaysUTC d 1)
      (fun c => c % 86400000 = 0) (now / 86400000 * 86400000 + 86399999)
      (fun c _ => day_hadv c) day_hP day_hmk
      ((now / 86400000 - 6) * 86400000) (by omega) b hb
    rw [hbe]
    show addDaysUTC c 1 - 1 = c + 86399999
    rw [addDaysUTC_eq]
    ring
  case refine_3 =>
    obtain ⟨c, hc, he, hlast⟩ := @enumBuckets_last
      (fun d => ⟨startOfDayUTC d, endOfDayUTC d⟩) (fun d => addDaysUTC d 1)
      (fun c => c % 86400000 = 0) (now / 86400000 * 86400000 + 86399999)
      (fun c _ => day_hadv c) day_hP day_hmk
      (fun c hc h1 h2 => by
        have h2' : now / 86400000 * 86400000 + 86399999 < addDaysUTC c 1 := h2
        show addDaysUTC c 1 = now / 86400000 * 86400000 + 86399999 + 1
        rw [addDaysUTC_eq] at h2' ⊢
        omega)
      ((now / 86400000 - 6) * 86400000) (by omega) (by omega)
    have he' : addDaysUTC c 1 = now / 86400000 * 86400000 + 86399999 + 1 := he
    rw [addDaysUTC_eq] at he'
    have hc2 : c = startOfDayUTC now := by
      rw [startOfDayUTC_eq]
      omega
    rw [hlast, hc2]
    congr 1
    rw [endOfDayUTC_eq]

/-- C9: `buildBuckets` terminates on every input because each of the three
cursor advances (1 day, 7 days, 1 calendar month) strictly increases the
cursor. -/
theorem C9_advance_increases (c : Int) :
    c < addDaysUTC c 1 ∧ c < addDaysUTC c 7 ∧ c < addMonthsUTC c 1 :=
  ⟨day_hadv c, week_hadv c, month_hadv c⟩

/-- C10: when the snapped end precedes the snapped start the enumeration
emits no bucket, and both handlers return a normal response with an empty
`trend`/`visitorsByBucket`. -/
theorem C10_inverted_range_empty (g ss es : String)
    (now rs re productCount : Int)
    (trends : List ProductTrendRow) (logs : List VisitorLogRow)
    (hrs : (buildBuckets (some ss) (some es) g now).rangeStart = some rs)
    (hre : (buildBuckets (some ss) (some es) g now).rangeEnd = some re)
    (hlt : re < rs) :
    (buildBuckets (some ss) (some es) g now).buckets = [] ∧
    (getDashboardProductsHandler (some ss) (some es) (some g) now trends
      productCount).trend = [] ∧
    (getDashboardVisitorsHandler (some ss) (some es) (some g) now
      logs).visitorsByBucket = [] := by
  have hb := buildBuckets_empty_of_inverted (some ss) (some es) g now rs re
    hrs hre hlt
  refine ⟨hb, ?_, ?_⟩
  case refine_1 =>
    show fillTotals none ((buildBuckets (some ss) (some es) g now).buckets.map
      (fun b =>
        ({ startDate := fmt b.start
           endDate := fmt b.stop
           totalProducts := (trends.filter (fun t =>
               decide (b.start ≤ t.date) && decide (t.date ≤ b.stop))).getLast?.map
             (fun l => l.totalProducts)
           productsAdded := (trends.filter (fun t =>
               decide (b.start ≤ t.date) && decide (t.date ≤ b.stop))).foldl
             (fun sum it => sum + it.productsAdded) 0
           productsRemoved := (trends.filter (fun t =>
               decide (b.start ≤ t.date) && decide (t.date ≤ b.stop))).foldl
             (fun sum it => sum + it.productsRemoved) 0 } : TrendBucketOut))) = []
    rw [hb]
    rfl
  case refine_2 =>
    show ((buildBuckets (some ss) (some es) g now).buckets.map (fun b =>
      ({ startDate := fmt b.start
         endDate := fmt b.stop
         visitors := logs.foldl (fun acc l =>
           acc + (if b.start ≤ l.visitedAt ∧ l.visitedAt ≤ b.stop then 1 else 0))
           0 } : VisitorBucketOut))) = []
    rw [hb]
    rfl

/-- Witness for C10: inverted supplied dates, empty record sets. -/
theorem C10_witness :
    (buildBuckets (some "2025-09-10") (some "2025-09-01") "day" 0).rangeStart =
      some 1757462400000 ∧
    (buildBuckets (some "2025-09-10") (some "2025-09-01") "day" 0).rangeEnd =
      some 1756771199999 ∧
    ((1756771199999 : Int) < 1757462400000) ∧
    ((buildBuckets (some "2025-09-10") (some "2025-09-01") "day" 0).buckets = [] ∧
     (getDashboardProductsHandler (some "2025-09-10") (some "2025-09-01")
       (some "day") 0 [] 0).trend = [] ∧
     (getDashboardVisitorsHandler (some "2025-09-10") (some "2025-09-01")
       (some "day") 0 []).visitorsByBucket = []) :=
  ⟨by decide, by decide, by decide,
    C10_inverted_range_empty "day" "2025-09-10" "2025-09-01" 0 1757462400000
      1756771199999 0 [] [] (by decide) (by decide) (by decide)⟩

end DashboardModel
